import Mathlib

/-! # Slot persistence adapter (`src/backend/gda/gnc-slots-gda.c`)

A shallow embedding of the save / delete / load paths of the slots handler of the GDA
backend, and theorems about them.

Conventions of the embedding.

* A C string (`gchar*`, the content of a `GString`) is a `List Char`.
* A pointer that the code tests against `NULL`, or that one of the entry points leaves
  unset, is an `Option`; arguments guarded by `g_return_if_fail( x != NULL )` in the entry
  points are taken non-null by type.
* The `slots` table is a list of rows in insertion order. A row whose `name` or `string_val`
  is longer than the size that `col_table` declares for the column is refused by the store
  (a write error); nothing else fails.
* A buffer length is a `gsize`, taken as 64 bits wide, and `curlen` is a `gint`, 32 bits wide
  and signed: the conversions between the two are `gint_of_gsize` and `gsize_of_gint`.
* A local `slot_info_t` is not initialised by the load functions; the content found in its
  `value_type` field is an explicit argument `uninit` of the embedding.
-/

namespace GncSlotsGda

/-! ## Data model -/

/-- Entity identifier (`GUID`): an opaque fixed-size key. -/
structure GUID where
  data : Nat
deriving DecidableEq, Repr

/-- The `Timespec` of the engine: seconds and nanoseconds. -/
structure Timespec where
  tv_sec : Int
  tv_nsec : Int
deriving DecidableEq, Repr

/-- The rational `gnc_numeric`: numerator and denominator. -/
structure gnc_numeric where
  num : Int
  denom : Int
deriving DecidableEq, Repr

/-- A C `double`, carried as its bit pattern: this file only transports doubles. -/
structure gdouble where
  bits : Nat
deriving DecidableEq, Repr

/-- Modelled from the spec: the typed value of a slot (spec section 3, "Slot Tree"), one
constructor per KVP value kind; the KVP library itself is not part of the file. A frame is
the list of its slots (key, value) in insertion order. -/
inductive KvpValue where
  | gint64 (v : Int)
  | double (v : gdouble)
  | numeric (v : gnc_numeric)
  | string (v : List Char)
  | guid (v : GUID)
  | timespec (v : Timespec)
  | binary (v : List Nat)
  | glist (v : List KvpValue)
  | frame (v : List (List Char × KvpValue))

instance : Inhabited KvpValue := ⟨.gint64 0⟩

/-- A frame: the slots of one level of the tree, in insertion order. -/
abbrev KvpFrame := List (List Char × KvpValue)

/-- The discriminant `KvpValueType`, an integer in C. -/
abbrev KvpValueType := Int

def KVP_TYPE_GINT64 : KvpValueType := 1
def KVP_TYPE_DOUBLE : KvpValueType := 2
def KVP_TYPE_NUMERIC : KvpValueType := 3
def KVP_TYPE_STRING : KvpValueType := 4
def KVP_TYPE_GUID : KvpValueType := 5
def KVP_TYPE_TIMESPEC : KvpValueType := 6
def KVP_TYPE_BINARY : KvpValueType := 7
def KVP_TYPE_GLIST : KvpValueType := 8
def KVP_TYPE_FRAME : KvpValueType := 9

def SLOT_MAX_PATHNAME_LEN : Nat := 4096
def SLOT_MAX_STRINGVAL_LEN : Nat := 4096

/-- The conversion of a `gsize` to a `gint` (the assignment `curlen = path->len`): the low
32 bits, read as a signed number. -/
def gint_of_gsize (n : Nat) : Int :=
  if n % 2 ^ 32 < 2 ^ 31 then ((n % 2 ^ 32 : Nat) : Int) else ((n % 2 ^ 32 : Nat) : Int) - 2 ^ 32

/-- The conversion of a `gint` to a `gsize` (the argument of `g_string_truncate`): the value
modulo 2^64. -/
def gsize_of_gint (c : Int) : Nat :=
  (c % 2 ^ 64).toNat

/-- The GLib call `g_string_truncate( string, len )`: the first `MIN( len, string->len )`
characters. -/
def g_string_truncate (string : List Char) (len : Nat) : List Char :=
  string.take (min len string.length)

/-- One row of the `slots` table, typed by the accessors of `col_table`: the columns whose
getter returns a pointer (`string_val`, `double_val`, `guid_val`) are nullable, the columns
whose accessor works by value (`gint64`, `Timespec`, `gnc_numeric`) carry a value, and the
three `COL_NNUL` columns are never null. -/
structure Row where
  obj_guid : GUID
  name : List Char
  slot_type : KvpValueType
  int64_val : Int
  string_val : Option (List Char)
  double_val : Option gdouble
  timespec_val : Timespec
  guid_val : Option GUID
  numeric_val : gnc_numeric
deriving DecidableEq, Repr

/-- The part of `GncGdaBackend` this file reads: the pristine flag and the content of the
table `TABLE_NAME`. -/
structure GncGdaBackend where
  is_pristine_db : Bool
  slots : List Row
deriving DecidableEq, Repr

/-- The transient cursor `slot_info_t`. -/
structure slot_info_t where
  be : GncGdaBackend
  guid : Option GUID
  pKvpFrame : Option KvpFrame
  value_type : KvpValueType
  pKvpValue : Option KvpValue
  path : List Char

/-- An entity as this file sees it: an identifier and a slot tree. -/
structure QofInstance where
  guid : GUID
  kvp_data : KvpFrame

/-- Modelled from the spec: the lookup collection of section 6 ("entities must share a common
lookup collection keyed by identifier"), as the map from an identifier to the slot tree of
the entity that has it. An entity is referred to by its key in the collection. -/
abbrev QofCollection := GUID → Option KvpFrame

/-! ## The KVP library, as far as this file calls it -/

/-- Modelled from the spec: `kvp_value_get_type`, the kind of a value (the nine kinds of
section 1, numbered from 1 as the enumeration of the KVP library; no value for `NULL`). -/
def kvp_value_get_type : Option KvpValue → KvpValueType
  | none => -1
  | some (.gint64 _) => KVP_TYPE_GINT64
  | some (.double _) => KVP_TYPE_DOUBLE
  | some (.numeric _) => KVP_TYPE_NUMERIC
  | some (.string _) => KVP_TYPE_STRING
  | some (.guid _) => KVP_TYPE_GUID
  | some (.timespec _) => KVP_TYPE_TIMESPEC
  | some (.binary _) => KVP_TYPE_BINARY
  | some (.glist _) => KVP_TYPE_GLIST
  | some (.frame _) => KVP_TYPE_FRAME

/-- Modelled from the spec: `kvp_value_get_gint64`. -/
def kvp_value_get_gint64 : Option KvpValue → Int
  | some (.gint64 v) => v
  | _ => 0

/-- Modelled from the spec: `kvp_value_get_string` (`NULL` for a value of another kind). -/
def kvp_value_get_string : Option KvpValue → Option (List Char)
  | some (.string s) => some s
  | _ => none

/-- Modelled from the spec: `kvp_value_get_double`. -/
def kvp_value_get_double : Option KvpValue → gdouble
  | some (.double d) => d
  | _ => ⟨0⟩

/-- Modelled from the spec: `kvp_value_get_timespec`; a value of another kind gives the zero
timestamp. -/
def kvp_value_get_timespec : Option KvpValue → Timespec
  | some (.timespec t) => t
  | _ => ⟨0, 0⟩

/-- Modelled from the spec: `kvp_value_get_guid` (`NULL` for a value of another kind). -/
def kvp_value_get_guid : Option KvpValue → Option GUID
  | some (.guid g) => some g
  | _ => none

/-- Modelled from the spec: `kvp_value_get_numeric`. -/
def kvp_value_get_numeric : Option KvpValue → gnc_numeric
  | some (.numeric n) => n
  | _ => ⟨0, 1⟩

/-- The zero rational `gnc_numeric_zero()`. -/
def gnc_numeric_zero : gnc_numeric := ⟨0, 1⟩

/-- Modelled from the spec: the value stored under `key` in one frame, if any. -/
def kvp_frame_get_slot : KvpFrame → List Char → Option KvpValue
  | [], _ => none
  | (k, v) :: rest, key => if k = key then some v else kvp_frame_get_slot rest key

/-- Modelled from the spec: store `value` under `key` in one frame, replacing the value of an
existing slot in place and adding a new slot after the existing ones. -/
def kvp_frame_set_slot : KvpFrame → List Char → KvpValue → KvpFrame
  | [], key, value => [(key, value)]
  | (k, v) :: rest, key, value =>
    if k = key then (k, value) :: rest else (k, v) :: kvp_frame_set_slot rest key value

/-- Modelled from the spec: section 4.2, "the path string, split on `/`, gives the sequence of
keys from root to leaf; intermediate segments must exist or be created as frame nodes; the
final segment is set to the typed value". This is the walk along the keys; an intermediate
segment that exists and is not a frame leaves the tree as it is. -/
def kvp_frame_set_value_keys : KvpFrame → List (List Char) → KvpValue → KvpFrame
  | frame, [], _ => frame
  | frame, [key], value => kvp_frame_set_slot frame key value
  | frame, key :: next :: keys, value =>
    match kvp_frame_get_slot frame key with
    | none =>
      kvp_frame_set_slot frame key
        (.frame (kvp_frame_set_value_keys [] (next :: keys) value))
    | some (.frame sub) =>
      kvp_frame_set_slot frame key
        (.frame (kvp_frame_set_value_keys sub (next :: keys) value))
    | some _ => frame

/-- Modelled from the spec: set the value at a slash-separated path of a frame (section 4.2);
nothing happens for a `NULL` frame. -/
def kvp_frame_set_value (frame : Option KvpFrame) (path : List Char) (value : KvpValue) :
    Option KvpFrame :=
  frame.map (fun f => kvp_frame_set_value_keys f (path.splitOn '/') value)

/-- Modelled from the spec: `kvp_frame_set_gint64`. -/
def kvp_frame_set_gint64 (frame : Option KvpFrame) (path : List Char) (ival : Int) :
    Option KvpFrame :=
  kvp_frame_set_value frame path (.gint64 ival)

/-- Modelled from the spec: `kvp_frame_set_string`. -/
def kvp_frame_set_string (frame : Option KvpFrame) (path : List Char) (str : List Char) :
    Option KvpFrame :=
  kvp_frame_set_value frame path (.string str)

/-- Modelled from the spec: `kvp_frame_set_double`. -/
def kvp_frame_set_double (frame : Option KvpFrame) (path : List Char) (dval : gdouble) :
    Option KvpFrame :=
  kvp_frame_set_value frame path (.double dval)

/-- Modelled from the spec: `kvp_frame_set_timespec`. -/
def kvp_frame_set_timespec (frame : Option KvpFrame) (path : List Char) (ts : Timespec) :
    Option KvpFrame :=
  kvp_frame_set_value frame path (.timespec ts)

/-- Modelled from the spec: `kvp_frame_set_guid`. -/
def kvp_frame_set_guid (frame : Option KvpFrame) (path : List Char) (guid : GUID) :
    Option KvpFrame :=
  kvp_frame_set_value frame path (.guid guid)

/-- Modelled from the spec: `kvp_frame_set_numeric`. -/
def kvp_frame_set_numeric (frame : Option KvpFrame) (path : List Char) (nval : gnc_numeric) :
    Option KvpFrame :=
  kvp_frame_set_value frame path (.numeric nval)

/-! ## Column accessors (`col_table`) -/

def get_obj_guid (pInfo : slot_info_t) : Option GUID :=
  pInfo.guid

/-- The setter is empty in the source: "Nowhere to put the GUID". -/
def set_obj_guid (pInfo : slot_info_t) (_pValue : Option GUID) : slot_info_t :=
  pInfo

def get_path (pInfo : slot_info_t) : List Char :=
  pInfo.path

def set_path (pInfo : slot_info_t) (pValue : Option (List Char)) : slot_info_t :=
  match pValue with
  | none => pInfo
  | some s => { pInfo with path := s }

def get_slot_type (pInfo : slot_info_t) : KvpValueType :=
  kvp_value_get_type pInfo.pKvpValue

/-- The discriminant arrives as an integer cast to a pointer, so the guard
`g_return_if_fail( pValue != NULL )` returns for the integer 0. -/
def set_slot_type (pInfo : slot_info_t) (pValue : KvpValueType) : slot_info_t :=
  if pValue = 0 then pInfo else { pInfo with value_type := pValue }

def get_int64_val (pInfo : slot_info_t) : Int :=
  if kvp_value_get_type pInfo.pKvpValue = KVP_TYPE_GINT64 then
    kvp_value_get_gint64 pInfo.pKvpValue
  else 0

def set_int64_val (pInfo : slot_info_t) (value : Int) : slot_info_t :=
  if pInfo.value_type = KVP_TYPE_GINT64 then
    { pInfo with pKvpFrame := kvp_frame_set_gint64 pInfo.pKvpFrame pInfo.path value }
  else pInfo

def get_string_val (pInfo : slot_info_t) : Option (List Char) :=
  if kvp_value_get_type pInfo.pKvpValue = KVP_TYPE_STRING then
    kvp_value_get_string pInfo.pKvpValue
  else none

def set_string_val (pInfo : slot_info_t) (pValue : Option (List Char)) : slot_info_t :=
  match pValue with
  | some s =>
    if pInfo.value_type = KVP_TYPE_STRING then
      { pInfo with pKvpFrame := kvp_frame_set_string pInfo.pKvpFrame pInfo.path s }
    else pInfo
  | none => pInfo

def get_double_val (pInfo : slot_info_t) : Option gdouble :=
  if kvp_value_get_type pInfo.pKvpValue = KVP_TYPE_DOUBLE then
    some (kvp_value_get_double pInfo.pKvpValue)
  else none

def set_double_val (pInfo : slot_info_t) (pValue : Option gdouble) : slot_info_t :=
  match pValue with
  | some d =>
    if pInfo.value_type = KVP_TYPE_DOUBLE then
      { pInfo with pKvpFrame := kvp_frame_set_double pInfo.pKvpFrame pInfo.path d }
    else pInfo
  | none => pInfo

/-- The test on the kind of the value is commented out in the source. -/
def get_timespec_val (pInfo : slot_info_t) : Timespec :=
  kvp_value_get_timespec pInfo.pKvpValue

def set_timespec_val (pInfo : slot_info_t) (ts : Timespec) : slot_info_t :=
  if pInfo.value_type = KVP_TYPE_TIMESPEC then
    { pInfo with pKvpFrame := kvp_frame_set_timespec pInfo.pKvpFrame pInfo.path ts }
  else pInfo

def get_guid_val (pInfo : slot_info_t) : Option GUID :=
  if kvp_value_get_type pInfo.pKvpValue = KVP_TYPE_GUID then
    kvp_value_get_guid pInfo.pKvpValue
  else none

def set_guid_val (pInfo : slot_info_t) (pValue : Option GUID) : slot_info_t :=
  match pValue with
  | some g =>
    if pInfo.value_type = KVP_TYPE_GUID then
      { pInfo with pKvpFrame := kvp_frame_set_guid pInfo.pKvpFrame pInfo.path g }
    else pInfo
  | none => pInfo

def get_numeric_val (pInfo : slot_info_t) : gnc_numeric :=
  if kvp_value_get_type pInfo.pKvpValue = KVP_TYPE_NUMERIC then
    kvp_value_get_numeric pInfo.pKvpValue
  else gnc_numeric_zero

def set_numeric_val (pInfo : slot_info_t) (value : gnc_numeric) : slot_info_t :=
  if pInfo.value_type = KVP_TYPE_NUMERIC then
    { pInfo with pKvpFrame := kvp_frame_set_numeric pInfo.pKvpFrame pInfo.path value }
  else pInfo

/-! ## The generic column layer, as far as this file calls it -/

/-- The operations this file asks of `gnc_gda_do_db_operation`. -/
inductive E_DB_OPERATION where
  | OP_DB_ADD
  | OP_DB_DELETE
deriving DecidableEq, Repr

/-- The two column tables of the file. -/
inductive slots_table where
  | col_table
  | obj_guid_col_table
deriving DecidableEq, Repr

/-- The row that the getters of `col_table`, applied in table order, produce for a cursor;
there is none when the `COL_NNUL` column `obj_guid` has no value. -/
def col_table_row (pInfo : slot_info_t) : Option Row :=
  match get_obj_guid pInfo with
  | none => none
  | some g =>
    some
      { obj_guid := g
        name := get_path pInfo
        slot_type := get_slot_type pInfo
        int64_val := get_int64_val pInfo
        string_val := get_string_val pInfo
        double_val := get_double_val pInfo
        timespec_val := get_timespec_val pInfo
        guid_val := get_guid_val pInfo
        numeric_val := get_numeric_val pInfo }

/-- Whether a row fits the sizes that `col_table` declares for its two string columns, both
`SLOT_MAX_PATHNAME_LEN`. -/
def row_fits (row : Row) : Bool :=
  decide (row.name.length ≤ SLOT_MAX_PATHNAME_LEN)
    && (match row.string_val with
        | some s => decide (s.length ≤ SLOT_MAX_PATHNAME_LEN)
        | none => true)

/-- Modelled from the spec: `gnc_gda_do_db_operation` on the table `slots`, the "generic
Column Conversion Table interpreter that executes INSERT/DELETE given a row-accessor-function
table" (section 2). `OP_DB_ADD` with `col_table` inserts the row of the getters; a row that
does not fit the declared column sizes is a write error and is not stored ("path strings must
not exceed a fixed maximum length (4096 characters)", "treat as a fatal write error",
section 4.1). `OP_DB_DELETE` with `obj_guid_col_table` removes "all rows for a given entity
identifier" (section 4.3). The file uses no other combination. -/
def gnc_gda_do_db_operation (be : GncGdaBackend) (op : E_DB_OPERATION) (pObject : slot_info_t)
    (table : slots_table) : Bool × GncGdaBackend :=
  match op, table with
  | .OP_DB_ADD, .col_table =>
    match col_table_row pObject with
    | some row =>
      if row_fits row then (true, { be with slots := be.slots ++ [row] }) else (false, be)
    | none => (false, be)
  | .OP_DB_DELETE, .obj_guid_col_table =>
    match get_obj_guid pObject with
    | some g => (true, { be with slots := be.slots.filter (fun r => decide (r.obj_guid ≠ g)) })
    | none => (false, be)
  | _, _ => (false, be)

/-- Modelled from the spec: `gnc_gda_load_object` with `col_table`: the setters of the table
are applied to the cursor in table order, each with the value of its column in the row. -/
def gnc_gda_load_object (row : Row) (pObject : slot_info_t) : slot_info_t :=
  let o := set_obj_guid pObject (some row.obj_guid)
  let o := set_path o (some row.name)
  let o := set_slot_type o row.slot_type
  let o := set_int64_val o row.int64_val
  let o := set_string_val o row.string_val
  let o := set_double_val o row.double_val
  let o := set_timespec_val o row.timespec_val
  let o := set_guid_val o row.guid_val
  set_numeric_val o row.numeric_val

/-- The WHERE clause of the two SELECT statements of the file. -/
inductive slots_query where
  | obj_guid_eq (guid : GUID)
  | obj_guid_in (guids : List GUID)

/-- Modelled from the spec: query execution (section 2), "fetch all rows matching one entity
identifier" or "whose owning id is in a provided set" (section 4.2), in table order. -/
def gnc_gda_execute_query (be : GncGdaBackend) : slots_query → List Row
  | .obj_guid_eq guid => be.slots.filter (fun r => decide (r.obj_guid = guid))
  | .obj_guid_in guids => be.slots.filter (fun r => decide (r.obj_guid ∈ guids))

/-! ## Save and delete -/

mutual
/-- The callback `save_slot`. The test `kvp_value_get_type( value ) == KVP_TYPE_FRAME` is the
match on the frame constructor; the result of the row write is discarded, as in the source. -/
def save_slot (key : List Char) : KvpValue → slot_info_t → slot_info_t
  | .frame pKvpFrame, pSlot_info =>
    let curlen := gint_of_gsize pSlot_info.path.length
    let i : slot_info_t := { pSlot_info with pKvpValue := some (.frame pKvpFrame) }
    let i : slot_info_t := if curlen ≠ 0 then { i with path := i.path ++ ['/'] } else i
    let i : slot_info_t := { i with path := i.path ++ key }
    let i := kvp_frame_for_each_slot_save_slot pKvpFrame i
    { i with path := g_string_truncate i.path (gsize_of_gint curlen) }
  | value, pSlot_info =>
    let curlen := gint_of_gsize pSlot_info.path.length
    let i : slot_info_t := { pSlot_info with pKvpValue := some value }
    let i : slot_info_t := if curlen ≠ 0 then { i with path := i.path ++ ['/'] } else i
    let i : slot_info_t := { i with path := i.path ++ key }
    let i : slot_info_t :=
      { i with be := (gnc_gda_do_db_operation i.be .OP_DB_ADD i .col_table).2 }
    { i with path := g_string_truncate i.path (gsize_of_gint curlen) }
/-- Modelled from the spec: `kvp_frame_for_each_slot( frame, save_slot, data )`, the callback
applied to every slot of the frame "in their natural (insertion) order" (section 4.1). -/
def kvp_frame_for_each_slot_save_slot : KvpFrame → slot_info_t → slot_info_t
  | [], data => data
  | (key, value) :: rest, data =>
    kvp_frame_for_each_slot_save_slot rest (save_slot key value data)
end

/-- Delete the rows of an entity. The local cursor gets `be` and `guid`; its other fields
stay unset and are not read by the getter of `obj_guid_col_table`. -/
def gnc_gda_slots_delete (be : GncGdaBackend) (guid : GUID) : GncGdaBackend :=
  let slot_info : slot_info_t :=
    { be := be, guid := some guid, pKvpFrame := none, value_type := 0, pKvpValue := none,
      path := [] }
  (gnc_gda_do_db_operation be .OP_DB_DELETE slot_info .obj_guid_col_table).2

/-- Save the slot tree of an entity: unless the backend is flagged pristine the old rows are
deleted first; then the frame is traversed with an empty path buffer. The fields `pKvpFrame`
and `value_type` of the cursor stay unset and are not read by the getters. -/
def gnc_gda_slots_save (be : GncGdaBackend) (guid : GUID) (pFrame : KvpFrame) :
    GncGdaBackend :=
  let be := if !be.is_pristine_db then gnc_gda_slots_delete be guid else be
  let slot_info : slot_info_t :=
    { be := be, guid := some guid, pKvpFrame := none, value_type := 0, pKvpValue := none,
      path := [] }
  (kvp_frame_for_each_slot_save_slot pFrame slot_info).be

/-! ## Load -/

/-- Load one result row into a frame; `uninit` is the content of the field `value_type` of
the local cursor, which the function does not initialise. The path starts as `NULL` and is
set by `set_path` from the `COL_NNUL` column `name` before any typed setter reads it. The
result is the frame after the call. -/
def load_slot (uninit : KvpValueType) (be : GncGdaBackend) (row : Row) (pFrame : KvpFrame) :
    KvpFrame :=
  let slot_info : slot_info_t :=
    { be := be, guid := none, pKvpFrame := some pFrame, value_type := uninit,
      pKvpValue := none, path := [] }
  match (gnc_gda_load_object row slot_info).pKvpFrame with
  | some f => f
  | none => pFrame

/-- The loop `for( r = 0; r < numRows; r++ )` over a result set; `uninit r` is the content
the call for row `r` finds in its uninitialised field. -/
def gnc_gda_slots_load (uninit : Nat → KvpValueType) (be : GncGdaBackend)
    (inst : QofInstance) : KvpFrame :=
  let pModel := gnc_gda_execute_query be (.obj_guid_eq inst.guid)
  pModel.enum.foldl (fun pFrame rr => load_slot (uninit rr.1) be rr.2 pFrame) inst.kvp_data

/-- The `obj_guid` column of a result row, read through `obj_guid_col_table`. -/
def load_obj_guid (_be : GncGdaBackend) (row : Row) : GUID :=
  row.obj_guid

/-- Modelled from the spec: `qof_collection_lookup_entity`, the entity of the collection
with a given identifier, `NULL` when there is none. -/
def qof_collection_lookup_entity (coll : QofCollection) (guid : GUID) : Option QofInstance :=
  (coll guid).map (fun f => { guid := guid, kvp_data := f })

/-- Modelled from the spec: `qof_instance_get_slots`, `NULL` for no instance. -/
def qof_instance_get_slots (inst : Option QofInstance) : Option KvpFrame :=
  inst.map (fun i => i.kvp_data)

/-- Load one result row into the tree of the entity that the collection holds for the row's
`obj_guid`. The result is the collection after the call. -/
def load_slot_for_list_item (uninit : KvpValueType) (be : GncGdaBackend) (row : Row)
    (coll : QofCollection) : QofCollection :=
  let guid := load_obj_guid be row
  let inst := qof_collection_lookup_entity coll guid
  let slot_info : slot_info_t :=
    { be := be, guid := none, pKvpFrame := qof_instance_get_slots inst, value_type := uninit,
      pKvpValue := none, path := [] }
  match (gnc_gda_load_object row slot_info).pKvpFrame with
  | some f => fun g => if g = guid then some f else coll g
  | none => coll

/-- Batch load. `list` holds the identifiers of the entities of the list and `coll` is the
collection of its first element. -/
def gnc_gda_slots_load_for_list (uninit : Nat → KvpValueType) (be : GncGdaBackend)
    (coll : QofCollection) (list : List GUID) : QofCollection :=
  match list with
  | [] => coll
  | first :: _ =>
    let sql : slots_query :=
      if list.length ≠ 1 then .obj_guid_in list else .obj_guid_eq first
    let model := gnc_gda_execute_query be sql
    model.enum.foldl (fun c rr => load_slot_for_list_item (uninit rr.1) be rr.2 c) coll

/-! ## Enumerations and well-formedness of slot trees (specification side) -/

mutual
/-- The leaf positions below one slot: the keys from that slot down to a leaf, and the leaf
value, depth first in insertion order. A frame is never a leaf position. -/
def value_leaves (key : List Char) : KvpValue → List (List (List Char) × KvpValue)
  | .frame sub => (frame_leaves sub).map (fun p => (key :: p.1, p.2))
  | v => [([key], v)]
/-- The leaf positions of a frame: the sequence of keys from the root to a leaf, and the leaf
value. -/
def frame_leaves : KvpFrame → List (List (List Char) × KvpValue)
  | [] => []
  | (k, v) :: rest => value_leaves k v ++ frame_leaves rest
end

mutual
/-- Every key that occurs in a value, at any depth. -/
def kvp_value_keys : KvpValue → List (List Char)
  | .frame sub => kvp_frame_keys sub
  | _ => []
/-- Every key that occurs in a frame, at any depth. -/
def kvp_frame_keys : KvpFrame → List (List Char)
  | [] => []
  | (k, v) :: rest => k :: (kvp_value_keys v ++ kvp_frame_keys rest)
end

mutual
/-- The keys of every frame inside the value are pairwise distinct. -/
def kvp_value_keys_unique : KvpValue → Bool
  | .frame sub => kvp_frame_keys_unique sub
  | _ => true
/-- The keys of the frame, and of every frame inside it, are pairwise distinct: a frame is a
table keyed by the slot name. -/
def kvp_frame_keys_unique : KvpFrame → Bool
  | [] => true
  | (k, v) :: rest =>
    (kvp_frame_get_slot rest k).isNone && kvp_value_keys_unique v && kvp_frame_keys_unique rest
end

mutual
/-- No frame inside the value is empty. -/
def kvp_value_no_empty_frame : KvpValue → Bool
  | .frame sub => !sub.isEmpty && kvp_frame_no_empty_frame sub
  | _ => true
/-- No frame below the root is empty. -/
def kvp_frame_no_empty_frame : KvpFrame → Bool
  | [] => true
  | (_, v) :: rest => kvp_value_no_empty_frame v && kvp_frame_no_empty_frame rest
end

/-- The six kinds of value that have a column of their own in `col_table`. -/
def kvp_value_storable : KvpValue → Bool
  | .gint64 _ => true
  | .double _ => true
  | .numeric _ => true
  | .string _ => true
  | .guid _ => true
  | .timespec _ => true
  | _ => false

/-- The buffer that entering the slots `keys` one inside the other builds from the buffer
`path`: a separator unless the buffer is empty, then the key. It is the buffer of `save_slot`
as long as no length reaches 2^31, where the `gint` `curlen` stops being the length. -/
def path_enter (path : List Char) : List (List Char) → List Char
  | [] => path
  | k :: ks => path_enter ((if path.length ≠ 0 then path ++ ['/'] else path) ++ k) ks

/-- The row that the getters of `col_table` give for the leaf `v` of entity `g` when the
path buffer holds `name`. -/
def leaf_row (g : GUID) (name : List Char) (v : KvpValue) : Row :=
  let i : slot_info_t :=
    { be := ⟨false, []⟩, guid := some g, pKvpFrame := none, value_type := 0,
      pKvpValue := some v, path := name }
  { obj_guid := g
    name := get_path i
    slot_type := get_slot_type i
    int64_val := get_int64_val i
    string_val := get_string_val i
    double_val := get_double_val i
    timespec_val := get_timespec_val i
    guid_val := get_guid_val i
    numeric_val := get_numeric_val i }

mutual
/-- The key sequences from one slot down to every slot below it, the slot itself included:
the positions of the leaves and of the frames. -/
def value_nodes (key : List Char) : KvpValue → List (List (List Char))
  | .frame sub => [key] :: (frame_nodes sub).map (fun ks => key :: ks)
  | _ => [[key]]
/-- The key sequences from the root to every slot of a frame, at any depth. -/
def frame_nodes : KvpFrame → List (List (List Char))
  | [] => []
  | (k, v) :: rest => value_nodes k v ++ frame_nodes rest
end

mutual
/-- The rows that one call of `save_slot` hands to the row write, in order, and the path
buffer it returns with, as a function of the buffer on entry. -/
def save_slot_trace (g : GUID) (key : List Char) : KvpValue → List Char → List Row × List Char
  | .frame sub, path =>
    let curlen := gint_of_gsize path.length
    let t := kvp_frame_trace g sub ((if curlen ≠ 0 then path ++ ['/'] else path) ++ key)
    (t.1, g_string_truncate t.2 (gsize_of_gint curlen))
  | v, path =>
    let curlen := gint_of_gsize path.length
    let p := (if curlen ≠ 0 then path ++ ['/'] else path) ++ key
    ([leaf_row g p v], g_string_truncate p (gsize_of_gint curlen))
/-- The rows that the traversal of a frame hands to the row write, in order, and the path
buffer it ends with, as a function of the buffer it starts with. -/
def kvp_frame_trace (g : GUID) : KvpFrame → List Char → List Row × List Char
  | [], path => ([], path)
  | (k, v) :: rest, path =>
    ((save_slot_trace g k v path).1 ++ (kvp_frame_trace g rest (save_slot_trace g k v path).2).1,
      (kvp_frame_trace g rest (save_slot_trace g k v path).2).2)
end

/-- The rows that saving a tree for an entity hands to the row write: the traversal starts
with the empty buffer. -/
def emitted_rows (g : GUID) (T : KvpFrame) : List Row :=
  (kvp_frame_trace g T []).1

/-- The rows of a tree for an entity: the emitted rows that the store accepts. -/
def flatten_rows (g : GUID) (T : KvpFrame) : List Row :=
  (emitted_rows g T).filter row_fits

/-- The rows of the leaf positions of a tree, each with the buffer of `path_enter` from the
empty buffer. -/
def leaf_rows (g : GUID) (T : KvpFrame) : List Row :=
  (frame_leaves T).map (fun p => leaf_row g (path_enter [] p.1) p.2)

/-- Every buffer content that a traversal reaches from the buffer `path` at the positions
`nodes` is shorter than 2^31 characters, the range of the `gint` that holds `curlen`. -/
def buffers_fit (path : List Char) (nodes : List (List (List Char))) : Prop :=
  path.length < 2 ^ 31 ∧ ∀ ks ∈ nodes, (path_enter path ks).length < 2 ^ 31

/-- The value that the setters of `col_table` store for a row when the cursor holds the
discriminant `vt`: the content of the column of `vt`, when there is one and it is not null. -/
def row_value (vt : KvpValueType) (row : Row) : Option KvpValue :=
  if vt = KVP_TYPE_GINT64 then some (.gint64 row.int64_val)
  else if vt = KVP_TYPE_STRING then row.string_val.map .string
  else if vt = KVP_TYPE_DOUBLE then row.double_val.map .double
  else if vt = KVP_TYPE_TIMESPEC then some (.timespec row.timespec_val)
  else if vt = KVP_TYPE_GUID then row.guid_val.map .guid
  else if vt = KVP_TYPE_NUMERIC then some (.numeric row.numeric_val)
  else none

/-- The discriminant that the setters of one `load_slot` call see: the column `slot_type`,
or for the integer 0 what the field held before. -/
def cursor_type (uninit : KvpValueType) (row : Row) : KvpValueType :=
  if row.slot_type = 0 then uninit else row.slot_type

/-- Set a list of leaf positions, one after the other, into a frame. -/
def set_leaves (frame : KvpFrame) (leaves : List (List (List Char) × KvpValue)) : KvpFrame :=
  leaves.foldl (fun f p => kvp_frame_set_value_keys f p.1 p.2) frame

/-- What one call of `save_slot`, and one traversal of a frame, do to the cursor, given the
rows and the buffer `t` of the trace: the rows that the store accepts are appended to the
table in order, the buffer is the one of the trace, and the entity and the pristine flag are
as before. -/
def save_effect (t : List Row × List Char) (i j : slot_info_t) : Prop :=
  j.be.slots = i.be.slots ++ t.1.filter row_fits
    ∧ j.path = t.2 ∧ j.guid = i.guid ∧ j.be.is_pristine_db = i.be.is_pristine_db

/-- What the setters of `col_table` do to a frame for a row, when the cursor holds the
discriminant `vt`: the value of `row_value`, if any, is set at the keys of the path. -/
def apply_row (vt : KvpValueType) (row : Row) (f : KvpFrame) : KvpFrame :=
  match row_value vt row with
  | some v => kvp_frame_set_value_keys f (row.name.splitOn '/') v
  | none => f

mutual
/-- The number of non-frame values inside a value (1 for a value that is not a frame). -/
def kvp_value_leaf_count : KvpValue → Nat
  | .frame sub => kvp_frame_leaf_count sub
  | _ => 1
/-- The number of non-frame values in a frame, at any depth. -/
def kvp_frame_leaf_count : KvpFrame → Nat
  | [] => 0
  | (_, v) :: rest => kvp_value_leaf_count v + kvp_frame_leaf_count rest
end

/-! ## Example data -/

/-- A collection that holds entities 1 and 2, both with an empty slot tree. -/
def example_coll : QofCollection :=
  fun g => if g = ⟨1⟩ ∨ g = ⟨2⟩ then some [] else none

/-! ## The typed-value columns -/

/-- The six typed-value columns of `col_table`. -/
inductive value_column where
  | int64_val
  | string_val
  | double_val
  | timespec_val
  | guid_val
  | numeric_val
deriving DecidableEq, Repr

/-- Whether a column of a row is populated (non-null) as the getter produces it: a getter
that returns by value (`gint64`, `Timespec`, `gnc_numeric`) always produces a value. -/
def column_populated (r : Row) : value_column → Bool
  | .int64_val => true
  | .string_val => r.string_val.isSome
  | .double_val => r.double_val.isSome
  | .timespec_val => true
  | .guid_val => r.guid_val.isSome
  | .numeric_val => true

/-- The typed-value column that corresponds to a discriminant, if any. -/
def column_of_type (t : KvpValueType) : Option value_column :=
  if t = KVP_TYPE_GINT64 then some .int64_val
  else if t = KVP_TYPE_STRING then some .string_val
  else if t = KVP_TYPE_DOUBLE then some .double_val
  else if t = KVP_TYPE_TIMESPEC then some .timespec_val
  else if t = KVP_TYPE_GUID then some .guid_val
  else if t = KVP_TYPE_NUMERIC then some .numeric_val
  else none

/-- What the typed-value columns of the row `r` emitted for the leaf `v` hold: the
discriminant is the kind of `v`; the column of the discriminant, when there is one, holds
`v`; a pointer column (`string_val`, `double_val`, `guid_val`) is non-null exactly when the
discriminant is its kind; and the by-value columns `int64_val` and `numeric_val` hold zero
when the discriminant is not theirs. -/
def typed_columns_of_leaf (r : Row) (v : KvpValue) : Prop :=
  r.slot_type = kvp_value_get_type (some v)
    ∧ row_value r.slot_type r = (if kvp_value_storable v = true then some v else none)
    ∧ (r.string_val ≠ none ↔ r.slot_type = KVP_TYPE_STRING)
    ∧ (r.double_val ≠ none ↔ r.slot_type = KVP_TYPE_DOUBLE)
    ∧ (r.guid_val ≠ none ↔ r.slot_type = KVP_TYPE_GUID)
    ∧ (r.slot_type ≠ KVP_TYPE_GINT64 → r.int64_val = 0)
    ∧ (r.slot_type ≠ KVP_TYPE_NUMERIC → r.numeric_val = gnc_numeric_zero)

/-- The value fits the size that `col_table` declares for its column: a string of at most
`SLOT_MAX_PATHNAME_LEN` characters; the other kinds have no size. -/
def kvp_value_fits : KvpValue → Bool
  | .string s => decide (s.length ≤ SLOT_MAX_PATHNAME_LEN)
  | _ => true

/-! # Theorems -/
/-! ## Save: the rows that are emitted -/

theorem col_table_row_eq (i : slot_info_t) (g : GUID) (v : KvpValue) (hg : i.guid = some g)
    (hv : i.pKvpValue = some v) : col_table_row i = some (leaf_row g i.path v) := by
  simp [col_table_row, leaf_row, get_obj_guid, get_path, get_slot_type, get_int64_val,
    get_string_val, get_double_val, get_timespec_val, get_guid_val, get_numeric_val, hg, hv]

theorem do_db_add_eq (be : GncGdaBackend) (j : slot_info_t) (g : GUID) (v : KvpValue)
    (hg : j.guid = some g) (hv : j.pKvpValue = some v) :
    (gnc_gda_do_db_operation be .OP_DB_ADD j .col_table).2
      = { is_pristine_db := be.is_pristine_db,
          slots := be.slots ++ [leaf_row g j.path v].filter row_fits } := by
  by_cases hf : row_fits (leaf_row g j.path v) = true
  · simp [gnc_gda_do_db_operation, col_table_row_eq j g v hg hv, hf]
  · simp [gnc_gda_do_db_operation, col_table_row_eq j g v hg hv, hf]

theorem save_effect_leaf (key : List Char) (v : KvpValue) (i : slot_info_t) (g : GUID)
    (hg : i.guid = some g) (hv : ∀ f, v ≠ .frame f) :
    save_effect (save_slot_trace g key v i.path) i (save_slot key v i) := by
  cases v with
  | frame f => exact absurd rfl (hv f)
  | _ =>
    by_cases hp : gint_of_gsize i.path.length = 0
    · simp [save_effect, save_slot, save_slot_trace, hp, do_db_add_eq _ _ g _ _ _, hg]
    · simp [save_effect, save_slot, save_slot_trace, hp, do_db_add_eq _ _ g _ _ _, hg]

mutual
theorem save_slot_spec (key : List Char) : (v : KvpValue) → (i : slot_info_t) → (g : GUID) →
    i.guid = some g → save_effect (save_slot_trace g key v i.path) i (save_slot key v i)
  | .frame f, i, g, hg => by
    have ih := save_each_spec f
      { i with pKvpValue := some (.frame f),
               path := (if gint_of_gsize i.path.length ≠ 0 then i.path ++ ['/'] else i.path)
                 ++ key } g hg
    unfold save_effect at ih ⊢
    by_cases hp : gint_of_gsize i.path.length = 0
    · simp only [hp, ne_eq, not_true_eq_false, if_false] at ih
      obtain ⟨h1, h2, h3, h4⟩ := ih
      simp only [save_slot, save_slot_trace, hp, ne_eq, not_true_eq_false, if_false]
      exact ⟨h1, by rw [h2], h3, h4⟩
    · simp only [hp, ne_eq, not_false_eq_true, if_true] at ih
      obtain ⟨h1, h2, h3, h4⟩ := ih
      simp only [save_slot, save_slot_trace, hp, ne_eq, not_false_eq_true, if_true]
      exact ⟨h1, by rw [h2], h3, h4⟩
  | .gint64 x, i, g, hg => save_effect_leaf key (.gint64 x) i g hg (by intro f; simp)
  | .double x, i, g, hg => save_effect_leaf key (.double x) i g hg (by intro f; simp)
  | .numeric x, i, g, hg => save_effect_leaf key (.numeric x) i g hg (by intro f; simp)
  | .string x, i, g, hg => save_effect_leaf key (.string x) i g hg (by intro f; simp)
  | .guid x, i, g, hg => save_effect_leaf key (.guid x) i g hg (by intro f; simp)
  | .timespec x, i, g, hg => save_effect_leaf key (.timespec x) i g hg (by intro f; simp)
  | .binary x, i, g, hg => save_effect_leaf key (.binary x) i g hg (by intro f; simp)
  | .glist x, i, g, hg => save_effect_leaf key (.glist x) i g hg (by intro f; simp)
theorem save_each_spec : (f : KvpFrame) → (i : slot_info_t) → (g : GUID) →
    i.guid = some g →
      save_effect (kvp_frame_trace g f i.path) i (kvp_frame_for_each_slot_save_slot f i)
  | [], i, g, _ => by simp [save_effect, kvp_frame_trace, kvp_frame_for_each_slot_save_slot]
  | (k, v) :: rest, i, g, hg => by
    obtain ⟨a1, a2, a3, a4⟩ := save_slot_spec k v i g hg
    obtain ⟨b1, b2, b3, b4⟩ := save_each_spec rest (save_slot k v i) g (a3.trans hg)
    rw [a2] at b1 b2
    refine ⟨?_, ?_, ?_, ?_⟩
    · simp only [kvp_frame_for_each_slot_save_slot, kvp_frame_trace, b1, a1, List.filter_append,
        List.append_assoc]
    · simpa [kvp_frame_for_each_slot_save_slot, kvp_frame_trace] using b2
    · simpa [kvp_frame_for_each_slot_save_slot] using b3.trans a3
    · simpa [kvp_frame_for_each_slot_save_slot] using b4.trans a4
end

/-! ## The trace when no buffer reaches the range of `gint` -/

theorem gint_of_gsize_small (n : Nat) (h : n < 2 ^ 31) : gint_of_gsize n = (n : Int) := by
  have h1 : n % 2 ^ 32 = n := Nat.mod_eq_of_lt (by omega)
  unfold gint_of_gsize
  rw [h1, if_pos h]

theorem gint_ne_zero_iff (n : Nat) (h : n < 2 ^ 31) : gint_of_gsize n ≠ 0 ↔ n ≠ 0 := by
  rw [gint_of_gsize_small n h]
  simp

theorem gsize_of_gint_small (n : Nat) (h : n < 2 ^ 31) : gsize_of_gint (gint_of_gsize n) = n := by
  rw [gint_of_gsize_small n h]
  simp only [gsize_of_gint]
  omega

theorem truncate_append (p x : List Char) : g_string_truncate (p ++ x) p.length = p := by
  simp [g_string_truncate]

theorem enter_one (p key : List Char) (h : p.length < 2 ^ 31) :
    (if gint_of_gsize p.length ≠ 0 then p ++ ['/'] else p) ++ key = path_enter p [key] := by
  by_cases hp : p.length = 0
  · have : gint_of_gsize p.length = 0 := by rw [gint_of_gsize_small _ h]; simp [hp]
    rw [this]
    simp [path_enter, hp]
  · have : gint_of_gsize p.length ≠ 0 := (gint_ne_zero_iff _ h).mpr hp
    simp [path_enter, hp, this]

theorem path_enter_prefix (ks : List (List Char)) :
    ∀ p : List Char, ∃ x, path_enter p ks = p ++ x := by
  induction ks with
  | nil => intro p; exact ⟨[], by simp [path_enter]⟩
  | cons k ks ih =>
    intro p
    obtain ⟨x, hx⟩ := ih ((if p.length ≠ 0 then p ++ ['/'] else p) ++ k)
    by_cases hp : p.length = 0
    · refine ⟨k ++ x, ?_⟩
      simp only [path_enter, hx]
      simp [hp]
    · refine ⟨['/'] ++ k ++ x, ?_⟩
      simp only [path_enter, hx]
      simp [hp]

theorem save_leaf_trace_ideal (g : GUID) (key : List Char) (v : KvpValue) (p : List Char)
    (hp : p.length < 2 ^ 31) (hv : ∀ f, v ≠ .frame f) :
    save_slot_trace g key v p
      = ((value_leaves key v).map (fun q => leaf_row g (path_enter p q.1) q.2), p) := by
  obtain ⟨x, hx⟩ := path_enter_prefix [key] p
  cases v with
  | frame f => exact absurd rfl (hv f)
  | _ =>
    simp only [save_slot_trace, enter_one p key hp, gsize_of_gint_small _ hp, value_leaves,
      List.map_cons, List.map_nil]
    refine Prod.ext rfl ?_
    simp only [hx, truncate_append]

mutual
theorem save_slot_trace_ideal (g : GUID) (key : List Char) : (v : KvpValue) → (p : List Char) →
    buffers_fit p (value_nodes key v) →
      save_slot_trace g key v p
        = ((value_leaves key v).map (fun q => leaf_row g (path_enter p q.1) q.2), p)
  | .frame sub, p, h => by
    obtain ⟨hp, hn⟩ := h
    have h1 : (path_enter p [key]).length < 2 ^ 31 := hn [key] (by simp [value_nodes])
    have hsub : buffers_fit (path_enter p [key]) (frame_nodes sub) := by
      refine ⟨h1, ?_⟩
      intro ks hks
      have := hn (key :: ks) (by simp [value_nodes, hks])
      simpa [path_enter] using this
    have ih := kvp_frame_trace_ideal g sub (path_enter p [key]) hsub
    obtain ⟨x, hx⟩ := path_enter_prefix [key] p
    simp only [save_slot_trace, enter_one p key hp, ih, gsize_of_gint_small _ hp, value_leaves,
      List.map_map]
    refine Prod.ext ?_ ?_
    · simp [Function.comp_def, path_enter]
    · simp only [hx, truncate_append]
  | .gint64 x, p, h => save_leaf_trace_ideal g key (.gint64 x) p h.1 (by intro f; simp)
  | .double x, p, h => save_leaf_trace_ideal g key (.double x) p h.1 (by intro f; simp)
  | .numeric x, p, h => save_leaf_trace_ideal g key (.numeric x) p h.1 (by intro f; simp)
  | .string x, p, h => save_leaf_trace_ideal g key (.string x) p h.1 (by intro f; simp)
  | .guid x, p, h => save_leaf_trace_ideal g key (.guid x) p h.1 (by intro f; simp)
  | .timespec x, p, h => save_leaf_trace_ideal g key (.timespec x) p h.1 (by intro f; simp)
  | .binary x, p, h => save_leaf_trace_ideal g key (.binary x) p h.1 (by intro f; simp)
  | .glist x, p, h => save_leaf_trace_ideal g key (.glist x) p h.1 (by intro f; simp)
theorem kvp_frame_trace_ideal (g : GUID) : (f : KvpFrame) → (p : List Char) →
    buffers_fit p (frame_nodes f) →
      kvp_frame_trace g f p
        = ((frame_leaves f).map (fun q => leaf_row g (path_enter p q.1) q.2), p)
  | [], p, _ => by simp [kvp_frame_trace, frame_leaves]
  | (k, v) :: rest, p, h => by
    have h1 : buffers_fit p (value_nodes k v) :=
      ⟨h.1, fun ks hks => h.2 ks (by simp [frame_nodes, hks])⟩
    have h2 : buffers_fit p (frame_nodes rest) :=
      ⟨h.1, fun ks hks => h.2 ks (by simp [frame_nodes, hks])⟩
    simp [kvp_frame_trace, frame_leaves, save_slot_trace_ideal g k v p h1,
      kvp_frame_trace_ideal g rest p h2]
end

/-! ## The emitted rows and the leaves -/

theorem forall₂_append_leaf {g : GUID} {r1 r2 : List Row}
    {l1 l2 : List (List (List Char) × KvpValue)}
    (h1 : List.Forall₂ (fun r q => ∃ name, r = leaf_row g name q.2) r1 l1)
    (h2 : List.Forall₂ (fun r q => ∃ name, r = leaf_row g name q.2) r2 l2) :
    List.Forall₂ (fun r q => ∃ name, r = leaf_row g name q.2) (r1 ++ r2) (l1 ++ l2) := by
  induction h1 with
  | nil => simpa using h2
  | cons hab _ ih => exact List.Forall₂.cons hab ih

mutual
theorem save_slot_trace_leaves (g : GUID) (key : List Char) : (v : KvpValue) → (p : List Char) →
    List.Forall₂ (fun r q => ∃ name, r = leaf_row g name q.2) (save_slot_trace g key v p).1
      (value_leaves key v)
  | .frame sub, p => by
    have ih := kvp_frame_trace_leaves g sub
      ((if gint_of_gsize p.length ≠ 0 then p ++ ['/'] else p) ++ key)
    simp only [save_slot_trace, value_leaves, List.forall₂_map_right_iff]
    exact ih
  | .gint64 x, p => by
    simp only [save_slot_trace, value_leaves]
    exact List.Forall₂.cons ⟨_, rfl⟩ List.Forall₂.nil
  | .double x, p => by
    simp only [save_slot_trace, value_leaves]
    exact List.Forall₂.cons ⟨_, rfl⟩ List.Forall₂.nil
  | .numeric x, p => by
    simp only [save_slot_trace, value_leaves]
    exact List.Forall₂.cons ⟨_, rfl⟩ List.Forall₂.nil
  | .string x, p => by
    simp only [save_slot_trace, value_leaves]
    exact List.Forall₂.cons ⟨_, rfl⟩ List.Forall₂.nil
  | .guid x, p => by
    simp only [save_slot_trace, value_leaves]
    exact List.Forall₂.cons ⟨_, rfl⟩ List.Forall₂.nil
  | .timespec x, p => by
    simp only [save_slot_trace, value_leaves]
    exact List.Forall₂.cons ⟨_, rfl⟩ List.Forall₂.nil
  | .binary x, p => by
    simp only [save_slot_trace, value_leaves]
    exact List.Forall₂.cons ⟨_, rfl⟩ List.Forall₂.nil
  | .glist x, p => by
    simp only [save_slot_trace, value_leaves]
    exact List.Forall₂.cons ⟨_, rfl⟩ List.Forall₂.nil
theorem kvp_frame_trace_leaves (g : GUID) : (f : KvpFrame) → (p : List Char) →
    List.Forall₂ (fun r q => ∃ name, r = leaf_row g name q.2) (kvp_frame_trace g f p).1
      (frame_leaves f)
  | [], p => by simp [kvp_frame_trace, frame_leaves]
  | (k, v) :: rest, p => by
    simp only [kvp_frame_trace, frame_leaves]
    exact forall₂_append_leaf (save_slot_trace_leaves g k v p)
      (kvp_frame_trace_leaves g rest _)
end

theorem emitted_rows_leaves (g : GUID) (T : KvpFrame) :
    List.Forall₂ (fun r q => ∃ name, r = leaf_row g name q.2) (emitted_rows g T)
      (frame_leaves T) :=
  kvp_frame_trace_leaves g T []

theorem emitted_rows_guid (g : GUID) (T : KvpFrame) : ∀ r ∈ emitted_rows g T, r.obj_guid = g := by
  have h := emitted_rows_leaves g T
  generalize emitted_rows g T = rows at h
  generalize frame_leaves T = leaves at h
  induction h with
  | nil => simp
  | cons hab _ ih =>
    intro r hr
    rcases List.mem_cons.mp hr with h1 | h1
    · obtain ⟨name, hname⟩ := hab
      rw [h1, hname]
      rfl
    · exact ih r h1

theorem emitted_rows_ideal (g : GUID) (T : KvpFrame) (h : buffers_fit [] (frame_nodes T)) :
    emitted_rows g T = leaf_rows g T := by
  simp [emitted_rows, leaf_rows, kvp_frame_trace_ideal g T [] h]

theorem flatten_rows_guid (g : GUID) (T : KvpFrame) : ∀ r ∈ flatten_rows g T, r.obj_guid = g :=
  fun r hr => emitted_rows_guid g T r (List.mem_filter.mp hr).1

theorem slots_save_spec (be : GncGdaBackend) (g : GUID) (T : KvpFrame) :
    (gnc_gda_slots_save be g T).slots
        = (if be.is_pristine_db then be.slots
            else be.slots.filter (fun r => decide (r.obj_guid ≠ g))) ++ flatten_rows g T
      ∧ (gnc_gda_slots_save be g T).is_pristine_db = be.is_pristine_db := by
  cases hb : be.is_pristine_db
  · obtain ⟨h1, -, -, h4⟩ := save_each_spec T
      { be := gnc_gda_slots_delete be g, guid := some g, pKvpFrame := none, value_type := 0,
        pKvpValue := none, path := [] } g rfl
    simp only [gnc_gda_slots_save, hb, Bool.not_false, if_true, h1, h4, flatten_rows,
      emitted_rows]
    simp [gnc_gda_slots_delete, gnc_gda_do_db_operation, get_obj_guid, hb]
  · obtain ⟨h1, -, -, h4⟩ := save_each_spec T
      { be := be, guid := some g, pKvpFrame := none, value_type := 0,
        pKvpValue := none, path := [] } g rfl
    simp [gnc_gda_slots_save, hb, h1, h4, flatten_rows, emitted_rows]

theorem slots_save_base (be : GncGdaBackend) (g : GUID) (T : KvpFrame) :
    (gnc_gda_slots_save be g T).slots
      = (if be.is_pristine_db then be else gnc_gda_slots_delete be g).slots
        ++ flatten_rows g T := by
  rw [(slots_save_spec be g T).1]
  cases hb : be.is_pristine_db <;>
    simp [gnc_gda_slots_delete, gnc_gda_do_db_operation, get_obj_guid]

theorem typed_setters_eq (be : GncGdaBackend) (o : Option KvpFrame) (vt : Int) (og : GUID)
    (nm : List Char) (st : KvpValueType) (iv : Int) (sv : Option (List Char))
    (dv : Option gdouble) (tv : Timespec) (gv : Option GUID) (nv : gnc_numeric) :
    (set_numeric_val (set_guid_val (set_timespec_val (set_double_val (set_string_val
        (set_int64_val
          { be := be, guid := none, pKvpFrame := o, value_type := vt,
            pKvpValue := none, path := nm } iv) sv) dv) tv) gv) nv).pKvpFrame
    = o.map (apply_row vt (Row.mk og nm st iv sv dv tv gv nv)) := by
  have hcases : vt = 1 ∨ vt = 2 ∨ vt = 3 ∨ vt = 4 ∨ vt = 5 ∨ vt = 6
      ∨ (vt ≠ 1 ∧ vt ≠ 2 ∧ vt ≠ 3 ∧ vt ≠ 4 ∧ vt ≠ 5 ∧ vt ≠ 6) := by omega
  rcases hcases with h | h | h | h | h | h | ⟨h1, h2, h3, h4, h5, h6⟩
  all_goals
    first
    | subst h
    | skip
  all_goals
    cases o <;> cases sv <;> cases dv <;> cases gv <;>
      simp [set_int64_val, set_string_val, set_double_val, set_timespec_val, set_guid_val,
        set_numeric_val, row_value, apply_row, KVP_TYPE_GINT64, KVP_TYPE_STRING,
        KVP_TYPE_DOUBLE, KVP_TYPE_TIMESPEC, KVP_TYPE_GUID, KVP_TYPE_NUMERIC,
        kvp_frame_set_gint64, kvp_frame_set_string, kvp_frame_set_double,
        kvp_frame_set_timespec, kvp_frame_set_guid, kvp_frame_set_numeric,
        kvp_frame_set_value, *]

theorem load_object_frame (uninit : KvpValueType) (be : GncGdaBackend) (row : Row)
    (o : Option KvpFrame) :
    (gnc_gda_load_object row
        { be := be, guid := none, pKvpFrame := o, value_type := uninit, pKvpValue := none,
          path := [] }).pKvpFrame
      = o.map (apply_row (cursor_type uninit row) row) := by
  obtain ⟨og, nm, st, iv, sv, dv, tv, gv, nv⟩ := row
  unfold gnc_gda_load_object
  by_cases h0 : st = 0
  · simpa [set_obj_guid, set_path, set_slot_type, cursor_type, h0]
      using typed_setters_eq be o uninit og nm st iv sv dv tv gv nv
  · simpa [set_obj_guid, set_path, set_slot_type, cursor_type, h0]
      using typed_setters_eq be o st og nm st iv sv dv tv gv nv

theorem load_slot_eq (uninit : KvpValueType) (be : GncGdaBackend) (row : Row)
    (frame : KvpFrame) :
    load_slot uninit be row frame = apply_row (cursor_type uninit row) row frame := by
  simp [load_slot, load_object_frame]

theorem load_item_eq (uninit : KvpValueType) (be : GncGdaBackend) (row : Row)
    (coll : QofCollection) :
    load_slot_for_list_item uninit be row coll
      = fun g => if g = row.obj_guid then (coll g).map (load_slot uninit be row) else coll g := by
  funext g
  simp only [load_slot_for_list_item, load_obj_guid, qof_collection_lookup_entity,
    qof_instance_get_slots, load_object_frame, Option.map_map, load_slot_eq]
  cases h : coll row.obj_guid with
  | none =>
    by_cases hg : g = row.obj_guid
    · subst hg; simp [h]
    · simp [hg]
  | some f =>
    by_cases hg : g = row.obj_guid
    · subst hg; simp [h, load_slot_eq]
    · simp [hg]

theorem load_slot_of_stored_type (uninit : KvpValueType) (be : GncGdaBackend) (row : Row)
    (frame : KvpFrame) (h : row.slot_type ≠ 0) :
    load_slot uninit be row frame = apply_row row.slot_type row frame := by
  rw [load_slot_eq]
  simp [cursor_type, h]


/-! ## The frame operations -/

theorem get_slot_eq_none_iff (f : KvpFrame) (k : List Char) :
    kvp_frame_get_slot f k = none ↔ k ∉ f.map Prod.fst := by
  induction f with
  | nil => simp [kvp_frame_get_slot]
  | cons a rest ih =>
    obtain ⟨k', v'⟩ := a
    by_cases h : k' = k
    · simp [kvp_frame_get_slot, h]
    · simp [kvp_frame_get_slot, h, ih, Ne.symm h]

theorem set_slot_new (d : KvpFrame) (k : List Char) (v : KvpValue)
    (h : kvp_frame_get_slot d k = none) : kvp_frame_set_slot d k v = d ++ [(k, v)] := by
  induction d with
  | nil => simp [kvp_frame_set_slot]
  | cons a rest ih =>
    obtain ⟨k', v'⟩ := a
    by_cases hk : k' = k
    · simp [kvp_frame_get_slot, hk] at h
    · simp only [kvp_frame_get_slot, hk, if_false] at h
      simp [kvp_frame_set_slot, hk, ih h]

theorem get_slot_last (d : KvpFrame) (k : List Char) (v : KvpValue)
    (h : kvp_frame_get_slot d k = none) : kvp_frame_get_slot (d ++ [(k, v)]) k = some v := by
  induction d with
  | nil => simp [kvp_frame_get_slot]
  | cons a rest ih =>
    obtain ⟨k', v'⟩ := a
    by_cases hk : k' = k
    · simp [kvp_frame_get_slot, hk] at h
    · simp only [kvp_frame_get_slot, hk, if_false] at h
      simp [kvp_frame_get_slot, hk, ih h]

theorem set_slot_last (d : KvpFrame) (k : List Char) (v w : KvpValue)
    (h : kvp_frame_get_slot d k = none) :
    kvp_frame_set_slot (d ++ [(k, v)]) k w = d ++ [(k, w)] := by
  induction d with
  | nil => simp [kvp_frame_set_slot]
  | cons a rest ih =>
    obtain ⟨k', v'⟩ := a
    by_cases hk : k' = k
    · simp [kvp_frame_get_slot, hk] at h
    · simp only [kvp_frame_get_slot, hk, if_false] at h
      simp [kvp_frame_set_slot, hk, ih h]

theorem set_keys_new_leaf (d : KvpFrame) (k : List Char) (v : KvpValue)
    (h : kvp_frame_get_slot d k = none) :
    kvp_frame_set_value_keys d [k] v = d ++ [(k, v)] := by
  simp [kvp_frame_set_value_keys, set_slot_new d k v h]

theorem set_keys_new_frame (d : KvpFrame) (k : List Char) (ks : List (List Char))
    (v : KvpValue) (h : kvp_frame_get_slot d k = none) (hks : ks ≠ []) :
    kvp_frame_set_value_keys d (k :: ks) v
      = d ++ [(k, .frame (kvp_frame_set_value_keys [] ks v))] := by
  cases ks with
  | nil => exact absurd rfl hks
  | cons k2 ks => simp [kvp_frame_set_value_keys, h, set_slot_new d k _ h]

theorem set_keys_in_frame (d s : KvpFrame) (k : List Char) (ks : List (List Char))
    (v : KvpValue) (h : kvp_frame_get_slot d k = none) (hks : ks ≠ []) :
    kvp_frame_set_value_keys (d ++ [(k, .frame s)]) (k :: ks) v
      = d ++ [(k, .frame (kvp_frame_set_value_keys s ks v))] := by
  cases ks with
  | nil => exact absurd rfl hks
  | cons k2 ks =>
    simp [kvp_frame_set_value_keys, get_slot_last d k _ h, set_slot_last d k _ _ h]

theorem set_leaves_in_frame (d : KvpFrame) (k : List Char)
    (h : kvp_frame_get_slot d k = none) :
    ∀ (L : List (List (List Char) × KvpValue)) (s : KvpFrame), (∀ p ∈ L, p.1 ≠ []) →
      set_leaves (d ++ [(k, .frame s)]) (L.map (fun p => (k :: p.1, p.2)))
        = d ++ [(k, .frame (set_leaves s L))] := by
  intro L
  induction L with
  | nil => intro s _; simp [set_leaves]
  | cons p L ih =>
    intro s hL
    have hp : p.1 ≠ [] := hL p (List.mem_cons_self _ _)
    have := ih (kvp_frame_set_value_keys s p.1 p.2)
      (fun q hq => hL q (List.mem_cons_of_mem _ hq))
    simpa [set_leaves, set_keys_in_frame d s k p.1 p.2 h hp] using this

theorem set_leaves_append (d : KvpFrame) (L M : List (List (List Char) × KvpValue)) :
    set_leaves d (L ++ M) = set_leaves (set_leaves d L) M := by
  simp [set_leaves]

mutual
theorem value_leaves_keys_ne_nil (k : List Char) :
    (v : KvpValue) → ∀ p ∈ value_leaves k v, p.1 ≠ []
  | .frame sub => by
    intro p hp
    simp only [value_leaves, List.mem_map] at hp
    obtain ⟨q, _, rfl⟩ := hp
    simp
  | .gint64 _ => by simp [value_leaves]
  | .double _ => by simp [value_leaves]
  | .numeric _ => by simp [value_leaves]
  | .string _ => by simp [value_leaves]
  | .guid _ => by simp [value_leaves]
  | .timespec _ => by simp [value_leaves]
  | .binary _ => by simp [value_leaves]
  | .glist _ => by simp [value_leaves]
end

theorem frame_leaves_keys_ne_nil (f : KvpFrame) : ∀ p ∈ frame_leaves f, p.1 ≠ [] := by
  induction f with
  | nil => simp [frame_leaves]
  | cons a rest ih =>
    obtain ⟨k, v⟩ := a
    intro p hp
    simp only [frame_leaves, List.mem_append] at hp
    rcases hp with hp | hp
    · exact value_leaves_keys_ne_nil k v p hp
    · exact ih p hp

theorem value_leaves_head (k : List Char) (v : KvpValue) :
    ∀ p ∈ value_leaves k v, ∃ ks, p.1 = k :: ks := by
  cases v with
  | frame sub =>
    intro p hp
    simp only [value_leaves, List.mem_map] at hp
    obtain ⟨q, _, rfl⟩ := hp
    exact ⟨q.1, rfl⟩
  | _ => simp [value_leaves]

theorem frame_leaves_head (f : KvpFrame) :
    ∀ p ∈ frame_leaves f, ∃ k ks, p.1 = k :: ks ∧ k ∈ f.map Prod.fst := by
  induction f with
  | nil => simp [frame_leaves]
  | cons a rest ih =>
    obtain ⟨k, v⟩ := a
    intro p hp
    simp only [frame_leaves, List.mem_append] at hp
    rcases hp with hp | hp
    · obtain ⟨ks, hks⟩ := value_leaves_head k v p hp
      exact ⟨k, ks, hks, by simp⟩
    · obtain ⟨k', ks, hks, hk'⟩ := ih p hp
      exact ⟨k', ks, hks, by simp only [List.map_cons, List.mem_cons]; exact Or.inr hk'⟩


/-! ## Rebuilding a tree from its leaf positions -/

mutual
theorem value_leaves_ne_nil (k : List Char) :
    (v : KvpValue) → kvp_value_no_empty_frame v = true → value_leaves k v ≠ []
  | .frame sub => by
    intro h
    simp only [kvp_value_no_empty_frame, Bool.and_eq_true, Bool.not_eq_true',
      List.isEmpty_eq_false] at h
    cases sub with
    | nil => simp at h
    | cons a rest =>
      obtain ⟨k', v'⟩ := a
      have h2 := h.2
      simp only [kvp_frame_no_empty_frame, Bool.and_eq_true] at h2
      have := value_leaves_ne_nil k' v' h2.1
      simp [value_leaves, frame_leaves, this]
  | .gint64 _ => by simp [value_leaves]
  | .double _ => by simp [value_leaves]
  | .numeric _ => by simp [value_leaves]
  | .string _ => by simp [value_leaves]
  | .guid _ => by simp [value_leaves]
  | .timespec _ => by simp [value_leaves]
  | .binary _ => by simp [value_leaves]
  | .glist _ => by simp [value_leaves]
end

mutual
theorem set_leaves_value (k : List Char) : (v : KvpValue) → (d : KvpFrame) →
    kvp_frame_get_slot d k = none → kvp_value_keys_unique v = true →
    kvp_value_no_empty_frame v = true → set_leaves d (value_leaves k v) = d ++ [(k, v)]
  | .frame sub, d, hd, hu, hn => by
    have hn' := hn
    simp only [kvp_value_no_empty_frame, Bool.and_eq_true] at hn'
    simp only [kvp_value_keys_unique] at hu
    have ih := set_leaves_frame sub [] (by simp [kvp_frame_get_slot]) hu hn'.2
    have hne := value_leaves_ne_nil k (.frame sub) hn
    simp only [value_leaves] at hne ⊢
    cases hL : frame_leaves sub with
    | nil => simp [hL] at hne
    | cons p L =>
      have hkeys := frame_leaves_keys_ne_nil sub
      rw [hL] at hkeys ih
      have hp : p.1 ≠ [] := hkeys p (List.mem_cons_self _ _)
      have hrest : ∀ q ∈ L, q.1 ≠ [] := fun q hq => hkeys q (List.mem_cons_of_mem _ hq)
      have step : set_leaves d (List.map (fun p => (k :: p.1, p.2)) (p :: L))
          = set_leaves (d ++ [(k, .frame (kvp_frame_set_value_keys [] p.1 p.2))])
              (L.map (fun p => (k :: p.1, p.2))) := by
        simp [set_leaves, set_keys_new_frame d k p.1 p.2 hd hp]
      rw [step, set_leaves_in_frame d k hd L _ hrest]
      have : set_leaves (kvp_frame_set_value_keys [] p.1 p.2) L = set_leaves [] (p :: L) := by
        simp [set_leaves]
      rw [this, ih]
      simp
  | .gint64 x, d, hd, _, _ => by simp [value_leaves, set_leaves, set_keys_new_leaf d k _ hd]
  | .double x, d, hd, _, _ => by simp [value_leaves, set_leaves, set_keys_new_leaf d k _ hd]
  | .numeric x, d, hd, _, _ => by simp [value_leaves, set_leaves, set_keys_new_leaf d k _ hd]
  | .string x, d, hd, _, _ => by simp [value_leaves, set_leaves, set_keys_new_leaf d k _ hd]
  | .guid x, d, hd, _, _ => by simp [value_leaves, set_leaves, set_keys_new_leaf d k _ hd]
  | .timespec x, d, hd, _, _ => by simp [value_leaves, set_leaves, set_keys_new_leaf d k _ hd]
  | .binary x, d, hd, _, _ => by simp [value_leaves, set_leaves, set_keys_new_leaf d k _ hd]
  | .glist x, d, hd, _, _ => by simp [value_leaves, set_leaves, set_keys_new_leaf d k _ hd]
theorem set_leaves_frame : (f : KvpFrame) → (d : KvpFrame) →
    (∀ k ∈ f.map Prod.fst, kvp_frame_get_slot d k = none) → kvp_frame_keys_unique f = true →
    kvp_frame_no_empty_frame f = true → set_leaves d (frame_leaves f) = d ++ f
  | [], d, _, _, _ => by simp [frame_leaves, set_leaves]
  | (k, v) :: rest, d, hd, hu, hn => by
    simp only [kvp_frame_keys_unique, Bool.and_eq_true, Option.isNone_iff_eq_none] at hu
    simp only [kvp_frame_no_empty_frame, Bool.and_eq_true] at hn
    have hk : kvp_frame_get_slot d k = none := hd k (by simp)
    have h1 := set_leaves_value k v d hk hu.1.2 hn.1
    have hd' : ∀ k' ∈ rest.map Prod.fst, kvp_frame_get_slot (d ++ [(k, v)]) k' = none := by
      intro k' hk'
      have h2 : kvp_frame_get_slot d k' = none := hd k' (by simp at hk' ⊢; exact Or.inr hk')
      have h3 : k' ≠ k := by
        intro he
        subst he
        exact (get_slot_eq_none_iff rest k').mp hu.1.1 hk'
      rw [get_slot_eq_none_iff] at h2 ⊢
      simp only [List.map_append, List.map_cons, List.map_nil, List.mem_append,
        List.mem_singleton, not_or]
      exact ⟨h2, h3⟩
    have h2 := set_leaves_frame rest (d ++ [(k, v)]) hd' hu.2 hn.2
    simp only [frame_leaves, set_leaves_append, h1, h2, List.append_assoc, List.singleton_append]
end

theorem set_leaves_roundtrip (T : KvpFrame) (hu : kvp_frame_keys_unique T = true)
    (hn : kvp_frame_no_empty_frame T = true) : set_leaves [] (frame_leaves T) = T := by
  simpa using set_leaves_frame T [] (by simp [kvp_frame_get_slot]) hu hn

/-! ## The path buffer -/

theorem path_enter_of_ne_nil (ks : List (List Char)) :
    ∀ p : List Char, p ≠ [] →
      path_enter p ks = p ++ (ks.map (fun k => '/' :: k)).flatten := by
  induction ks with
  | nil => intro p _; simp [path_enter]
  | cons k ks ih =>
    intro p hp
    have hlen : p.length ≠ 0 := by simpa using hp
    simp only [path_enter, hlen, ne_eq, not_false_eq_true, if_true]
    rw [ih (p ++ ['/'] ++ k) (by simp [hp])]
    simp

theorem intercalate_slash_cons (ks : List (List Char)) :
    ∀ k : List Char,
      List.intercalate ['/'] (k :: ks) = k ++ (ks.map (fun k => '/' :: k)).flatten := by
  induction ks with
  | nil => intro k; simp [List.intercalate]
  | cons k2 ks ih =>
    intro k
    have := ih k2
    simp only [List.intercalate, List.intersperse] at this ⊢
    simp [this]

theorem path_enter_eq_intercalate (ks : List (List Char)) (h : ∀ k ∈ ks, k ≠ []) :
    path_enter [] ks = List.intercalate ['/'] ks := by
  cases ks with
  | nil => simp [path_enter, List.intercalate]
  | cons k ks =>
    have hk : k ≠ [] := h k (List.mem_cons_self _ _)
    rw [intercalate_slash_cons, ← path_enter_of_ne_nil ks k hk]
    simp [path_enter]

mutual
theorem value_leaves_keys_mem (k : List Char) :
    (v : KvpValue) → ∀ p ∈ value_leaves k v, ∀ x ∈ p.1, x = k ∨ x ∈ kvp_value_keys v
  | .frame sub => by
    intro p hp x hx
    simp only [value_leaves, List.mem_map] at hp
    obtain ⟨q, hq, rfl⟩ := hp
    simp only [List.mem_cons] at hx
    rcases hx with hx | hx
    · exact Or.inl hx
    · exact Or.inr (by simpa [kvp_value_keys] using frame_leaves_keys_mem sub q hq x hx)
  | .gint64 _ => by simp [value_leaves]
  | .double _ => by simp [value_leaves]
  | .numeric _ => by simp [value_leaves]
  | .string _ => by simp [value_leaves]
  | .guid _ => by simp [value_leaves]
  | .timespec _ => by simp [value_leaves]
  | .binary _ => by simp [value_leaves]
  | .glist _ => by simp [value_leaves]
theorem frame_leaves_keys_mem :
    (f : KvpFrame) → ∀ p ∈ frame_leaves f, ∀ x ∈ p.1, x ∈ kvp_frame_keys f
  | [] => by simp [frame_leaves]
  | (k, v) :: rest => by
    intro p hp x hx
    simp only [frame_leaves, List.mem_append] at hp
    simp only [kvp_frame_keys, List.mem_cons, List.mem_append]
    rcases hp with hp | hp
    · rcases value_leaves_keys_mem k v p hp x hx with h | h
      · exact Or.inl h
      · exact Or.inr (Or.inl h)
    · exact Or.inr (Or.inr (frame_leaves_keys_mem rest p hp x hx))
end

theorem leaf_rows_names (g : GUID) (T : KvpFrame) (h : [] ∉ kvp_frame_keys T) :
    (leaf_rows g T).map Row.name
      = (frame_leaves T).map (fun p => List.intercalate ['/'] p.1) := by
  simp only [leaf_rows, List.map_map]
  apply List.map_congr_left
  intro p hp
  have : ∀ k ∈ p.1, k ≠ [] := by
    intro k hk he
    subst he
    exact h (frame_leaves_keys_mem T p hp _ hk)
  simp [leaf_row, get_path, path_enter_eq_intercalate p.1 this]

/-! ## Loading the rows of a tree -/

theorem leaf_row_value (uninit : KvpValueType) (g : GUID) (nm : List Char) (v : KvpValue) :
    row_value (cursor_type uninit (leaf_row g nm v)) (leaf_row g nm v)
      = if kvp_value_storable v = true then some v else none := by
  cases v <;>
    simp [row_value, cursor_type, leaf_row, get_slot_type, get_int64_val, get_string_val,
      get_double_val, get_timespec_val, get_guid_val, get_numeric_val, kvp_value_get_type,
      kvp_value_get_gint64, kvp_value_get_string, kvp_value_get_double,
      kvp_value_get_timespec, kvp_value_get_guid, kvp_value_get_numeric, kvp_value_storable,
      KVP_TYPE_GINT64, KVP_TYPE_STRING, KVP_TYPE_DOUBLE, KVP_TYPE_TIMESPEC, KVP_TYPE_GUID,
      KVP_TYPE_NUMERIC, KVP_TYPE_BINARY, KVP_TYPE_GLIST, KVP_TYPE_FRAME]

theorem load_slot_leaf_row (uninit : KvpValueType) (be : GncGdaBackend) (g : GUID)
    (nm : List Char) (v : KvpValue) (frame : KvpFrame) (hv : kvp_value_storable v = true) :
    load_slot uninit be (leaf_row g nm v) frame
      = kvp_frame_set_value_keys frame (nm.splitOn '/') v := by
  rw [load_slot_eq, apply_row, leaf_row_value, if_pos hv]
  simp [leaf_row, get_path]

theorem foldl_enumFrom_congr {α β : Type} (F : Nat → α → β → β) (G : α → β → β) :
    ∀ (L : List α) (n : Nat) (init : β), (∀ a ∈ L, ∀ m b, F m a b = G a b) →
      (L.enumFrom n).foldl (fun b rr => F rr.1 rr.2 b) init = L.foldl (fun b a => G a b) init := by
  intro L
  induction L with
  | nil => intro n init _; simp
  | cons a L ih =>
    intro n init h
    simp only [List.enumFrom_cons, List.foldl_cons]
    rw [h a (List.mem_cons_self _ _)]
    exact ih (n + 1) _ (fun a' ha' => h a' (List.mem_cons_of_mem _ ha'))

theorem load_leaf_rows (uninit : Nat → KvpValueType) (be : GncGdaBackend) (g : GUID)
    (T frame : KvpFrame)
    (hkeys : ∀ k ∈ kvp_frame_keys T, k ≠ [] ∧ '/' ∉ k)
    (hleaves : ∀ p ∈ frame_leaves T, kvp_value_storable p.2 = true) :
    (leaf_rows g T).enum.foldl (fun f rr => load_slot (uninit rr.1) be rr.2 f) frame
      = set_leaves frame (frame_leaves T) := by
  have hrow : ∀ r ∈ leaf_rows g T, ∀ (m : Nat) (f : KvpFrame),
      load_slot (uninit m) be r f = load_slot 1 be r f := by
    intro r hr m f
    simp only [leaf_rows, List.mem_map] at hr
    obtain ⟨p, hp, rfl⟩ := hr
    rw [load_slot_leaf_row _ _ _ _ _ _ (hleaves p hp),
      load_slot_leaf_row _ _ _ _ _ _ (hleaves p hp)]
  rw [List.enum, foldl_enumFrom_congr (fun m r f => load_slot (uninit m) be r f)
    (fun r f => load_slot 1 be r f) _ 0 frame hrow]
  simp only [leaf_rows, set_leaves, List.foldl_map]
  apply List.foldl_ext
  intro f p hp
  rw [load_slot_leaf_row _ _ _ _ _ _ (hleaves p hp)]
  have hk : ∀ k ∈ p.1, k ≠ [] := fun k hk => (hkeys k (frame_leaves_keys_mem T p hp k hk)).1
  have hs : ∀ k ∈ p.1, '/' ∉ k := fun k hk => (hkeys k (frame_leaves_keys_mem T p hp k hk)).2
  have hne : p.1 ≠ [] := frame_leaves_keys_ne_nil T p hp
  have hsplit : (List.intercalate ['/'] p.1).splitOn '/' = p.1 :=
    List.splitOn_intercalate p.1 '/' hs hne
  rw [path_enter_eq_intercalate p.1 hk]
  exact congrArg (fun ks => kvp_frame_set_value_keys f ks p.2) hsplit

/-! ## Trees within the sizes of the columns -/

theorem path_enter_append (ks ks2 : List (List Char)) :
    ∀ p : List Char, path_enter p (ks ++ ks2) = path_enter (path_enter p ks) ks2 := by
  induction ks with
  | nil => intro p; simp [path_enter]
  | cons k ks ih => intro p; simp [path_enter, ih]

theorem path_enter_length_le (ks ks2 : List (List Char)) (p : List Char) :
    (path_enter p ks).length ≤ (path_enter p (ks ++ ks2)).length := by
  rw [path_enter_append]
  obtain ⟨x, hx⟩ := path_enter_prefix ks2 (path_enter p ks)
  rw [hx]
  simp

theorem value_leaf_exists (k : List Char) (v : KvpValue)
    (hv : ∀ f, v ≠ .frame f) : ([k], v) ∈ value_leaves k v := by
  cases v with
  | frame f => exact absurd rfl (hv f)
  | _ => simp [value_leaves]

mutual
theorem value_nodes_prefix (k : List Char) : (v : KvpValue) →
    kvp_value_no_empty_frame v = true →
      ∀ ks ∈ value_nodes k v, ∃ q ∈ value_leaves k v, ∃ ks2, q.1 = ks ++ ks2
  | .frame sub => by
    intro hn ks hks
    have hn2 := hn
    simp only [kvp_value_no_empty_frame, Bool.and_eq_true] at hn2
    simp only [value_nodes, List.mem_cons, List.mem_map] at hks
    rcases hks with h | ⟨ks1, hks1, rfl⟩
    · subst h
      have hne := value_leaves_ne_nil k (.frame sub) hn
      obtain ⟨q, hq⟩ := List.exists_mem_of_ne_nil _ hne
      obtain ⟨rest, hrest⟩ := value_leaves_head k (.frame sub) q hq
      exact ⟨q, hq, rest, by simpa using hrest⟩
    · obtain ⟨q, hq, ks2, hq2⟩ := frame_nodes_prefix sub hn2.2 ks1 hks1
      refine ⟨(k :: q.1, q.2), ?_, ks2, by simp [hq2]⟩
      simp only [value_leaves, List.mem_map]
      exact ⟨q, hq, rfl⟩
  | .gint64 x => by
    intro _ ks hks
    simp only [value_nodes, List.mem_singleton] at hks
    exact ⟨([k], .gint64 x), by simp [value_leaves], [], by simp [hks]⟩
  | .double x => by
    intro _ ks hks
    simp only [value_nodes, List.mem_singleton] at hks
    exact ⟨([k], .double x), by simp [value_leaves], [], by simp [hks]⟩
  | .numeric x => by
    intro _ ks hks
    simp only [value_nodes, List.mem_singleton] at hks
    exact ⟨([k], .numeric x), by simp [value_leaves], [], by simp [hks]⟩
  | .string x => by
    intro _ ks hks
    simp only [value_nodes, List.mem_singleton] at hks
    exact ⟨([k], .string x), by simp [value_leaves], [], by simp [hks]⟩
  | .guid x => by
    intro _ ks hks
    simp only [value_nodes, List.mem_singleton] at hks
    exact ⟨([k], .guid x), by simp [value_leaves], [], by simp [hks]⟩
  | .timespec x => by
    intro _ ks hks
    simp only [value_nodes, List.mem_singleton] at hks
    exact ⟨([k], .timespec x), by simp [value_leaves], [], by simp [hks]⟩
  | .binary x => by
    intro _ ks hks
    simp only [value_nodes, List.mem_singleton] at hks
    exact ⟨([k], .binary x), by simp [value_leaves], [], by simp [hks]⟩
  | .glist x => by
    intro _ ks hks
    simp only [value_nodes, List.mem_singleton] at hks
    exact ⟨([k], .glist x), by simp [value_leaves], [], by simp [hks]⟩
theorem frame_nodes_prefix : (f : KvpFrame) → kvp_frame_no_empty_frame f = true →
    ∀ ks ∈ frame_nodes f, ∃ q ∈ frame_leaves f, ∃ ks2, q.1 = ks ++ ks2
  | [] => by simp [frame_nodes]
  | (k, v) :: rest => by
    intro hn ks hks
    simp only [kvp_frame_no_empty_frame, Bool.and_eq_true] at hn
    simp only [frame_nodes, List.mem_append] at hks
    rcases hks with h | h
    · obtain ⟨q, hq, ks2, h2⟩ := value_nodes_prefix k v hn.1 ks h
      exact ⟨q, by simp [frame_leaves, hq], ks2, h2⟩
    · obtain ⟨q, hq, ks2, h2⟩ := frame_nodes_prefix rest hn.2 ks h
      exact ⟨q, by simp [frame_leaves, hq], ks2, h2⟩
end

/-- For a tree without an empty frame whose leaf paths have at most `n` characters, every
buffer content of the traversal has at most `n` characters. -/
theorem nodes_bound_of_leaves (T : KvpFrame) (n : Nat)
    (hframes : kvp_frame_no_empty_frame T = true)
    (hleaf : ∀ p ∈ frame_leaves T, (path_enter [] p.1).length ≤ n) :
    ∀ ks ∈ frame_nodes T, (path_enter [] ks).length ≤ n := by
  intro ks hks
  obtain ⟨q, hq, ks2, h2⟩ := frame_nodes_prefix T hframes ks hks
  have := hleaf q hq
  rw [h2] at this
  exact le_trans (path_enter_length_le ks ks2 []) this

theorem leaf_row_fits (g : GUID) (nm : List Char) (v : KvpValue)
    (hn : nm.length ≤ SLOT_MAX_PATHNAME_LEN) (hv : kvp_value_fits v = true) :
    row_fits (leaf_row g nm v) = true := by
  cases v <;>
    simp_all [row_fits, leaf_row, get_path, get_string_val, kvp_value_get_type,
      kvp_value_get_string, kvp_value_fits, KVP_TYPE_GINT64, KVP_TYPE_STRING, KVP_TYPE_DOUBLE,
      KVP_TYPE_TIMESPEC, KVP_TYPE_GUID, KVP_TYPE_NUMERIC, KVP_TYPE_BINARY, KVP_TYPE_GLIST,
      KVP_TYPE_FRAME]

/-- The rows that the store keeps are the rows of the leaf positions, when no buffer reaches
2^31 characters and every leaf row fits the sizes of the columns. -/
theorem flatten_rows_ideal (g : GUID) (T : KvpFrame) (hb : buffers_fit [] (frame_nodes T))
    (hfit : ∀ p ∈ frame_leaves T,
      (path_enter [] p.1).length ≤ SLOT_MAX_PATHNAME_LEN ∧ kvp_value_fits p.2 = true) :
    flatten_rows g T = leaf_rows g T := by
  rw [flatten_rows, emitted_rows_ideal g T hb, List.filter_eq_self]
  intro r hr
  simp only [leaf_rows, List.mem_map] at hr
  obtain ⟨p, hp, rfl⟩ := hr
  exact leaf_row_fits g _ _ (hfit p hp).1 (hfit p hp).2

/-! ## Claims on save followed by load -/

theorem filter_flatten_rows (g : GUID) (T : KvpFrame) :
    (flatten_rows g T).filter (fun r => decide (r.obj_guid = g)) = flatten_rows g T := by
  rw [List.filter_eq_self]
  intro r hr
  simpa using flatten_rows_guid g T r hr

theorem save_then_select (be : GncGdaBackend) (g : GUID) (T : KvpFrame)
    (hstore : be.is_pristine_db = false ∨ ∀ r ∈ be.slots, r.obj_guid ≠ g) :
    gnc_gda_execute_query (gnc_gda_slots_save be g T) (.obj_guid_eq g) = flatten_rows g T := by
  have hbase : ((if be.is_pristine_db then be.slots
      else be.slots.filter (fun r => decide (r.obj_guid ≠ g))).filter
        (fun r => decide (r.obj_guid = g))) = [] := by
    rw [List.filter_eq_nil_iff]
    intro r hr
    cases hb : be.is_pristine_db
    · simp only [hb, Bool.false_eq_true, if_false, List.mem_filter] at hr
      simpa using hr.2
    · simp only [hb, if_true] at hr
      rcases hstore with h | h
      · simp [hb] at h
      · simpa using h r hr
  simp only [gnc_gda_execute_query, (slots_save_spec be g T).1, List.filter_append, hbase,
    List.nil_append, filter_flatten_rows]

/-- C1 (as amended). Round trip: for every entity `g`, every store that is not flagged
pristine or holds no row of `g`, and every slot tree `T` that respects the path-length and
value constraints (every leaf path has at most `SLOT_MAX_PATHNAME_LEN` characters, every
string leaf too, and the leaves are of the six kinds with a column of their own), whose keys
are distinct within each frame, non-empty and free of the separator, and that has no empty
frame below the root, saving `T` for `g` and then loading `g` into an empty tree gives `T`
back, whatever the uninitialised cursor field holds. -/
theorem slots_round_trip (uninit : Nat → KvpValueType) (be : GncGdaBackend) (g : GUID)
    (T : KvpFrame)
    (hstore : be.is_pristine_db = false ∨ ∀ r ∈ be.slots, r.obj_guid ≠ g)
    (hunique : kvp_frame_keys_unique T = true)
    (hkeys : ∀ k ∈ kvp_frame_keys T, k ≠ [] ∧ '/' ∉ k)
    (hframes : kvp_frame_no_empty_frame T = true)
    (hleaves : ∀ p ∈ frame_leaves T, kvp_value_storable p.2 = true)
    (hfit : ∀ p ∈ frame_leaves T,
      (List.intercalate ['/'] p.1).length ≤ SLOT_MAX_PATHNAME_LEN
        ∧ kvp_value_fits p.2 = true) :
    gnc_gda_slots_load uninit (gnc_gda_slots_save be g T) { guid := g, kvp_data := [] } = T := by
  have hfit2 : ∀ p ∈ frame_leaves T,
      (path_enter [] p.1).length ≤ SLOT_MAX_PATHNAME_LEN ∧ kvp_value_fits p.2 = true := by
    intro p hp
    have hk : ∀ k ∈ p.1, k ≠ [] := fun k hk => (hkeys k (frame_leaves_keys_mem T p hp k hk)).1
    rw [path_enter_eq_intercalate p.1 hk]
    exact hfit p hp
  have hnodes := nodes_bound_of_leaves T SLOT_MAX_PATHNAME_LEN hframes
    (fun p hp => (hfit2 p hp).1)
  have hb : buffers_fit [] (frame_nodes T) := by
    refine ⟨by simp, ?_⟩
    intro ks hks
    have := hnodes ks hks
    simp only [SLOT_MAX_PATHNAME_LEN] at this
    omega
  simp only [gnc_gda_slots_load, save_then_select be g T hstore]
  rw [flatten_rows_ideal g T hb hfit2, load_leaf_rows uninit _ g T [] hkeys hleaves]
  exact set_leaves_roundtrip T hunique hframes

/-- Witness of C1: the tree `{a: {b: 5, c: "x"}, d: 1/3}` saved over an older row of the
same entity. -/
theorem slots_round_trip_witness :
    gnc_gda_slots_load (fun _ => 0)
        (gnc_gda_slots_save
          { is_pristine_db := false, slots := [leaf_row ⟨7⟩ ['z'] (.gint64 9)] } ⟨7⟩
          [(['a'], .frame [(['b'], .gint64 5), (['c'], .string ['x'])]),
           (['d'], .numeric ⟨1, 3⟩)])
        { guid := ⟨7⟩, kvp_data := [] }
      = [(['a'], .frame [(['b'], .gint64 5), (['c'], .string ['x'])]),
         (['d'], .numeric ⟨1, 3⟩)] :=
  slots_round_trip (fun _ => 0)
    { is_pristine_db := false, slots := [leaf_row ⟨7⟩ ['z'] (.gint64 9)] } ⟨7⟩
    [(['a'], .frame [(['b'], .gint64 5), (['c'], .string ['x'])]), (['d'], .numeric ⟨1, 3⟩)]
    (Or.inl rfl) rfl (by decide) rfl (by decide) (by decide)

/-- Counterexample to C1 as stated: a tree with an empty frame, `{a: {}}`, has no leaf, so it
meets the constraints on paths and value kinds, yet it is saved as no row and loads as the
empty tree; and the tree `{"a/b": 5}` loads as `{a: {b: 5}}`. -/
theorem slots_round_trip_counterexample :
    (gnc_gda_slots_load (fun _ => 0)
        (gnc_gda_slots_save { is_pristine_db := false, slots := [] } ⟨1⟩
          [(['a'], .frame [])])
        { guid := ⟨1⟩, kvp_data := [] } ≠ [(['a'], .frame [])])
      ∧ (gnc_gda_slots_load (fun _ => 0)
        (gnc_gda_slots_save { is_pristine_db := false, slots := [] } ⟨1⟩
          [(['a', '/', 'b'], .gint64 5)])
        { guid := ⟨1⟩, kvp_data := [] } ≠ [(['a', '/', 'b'], .gint64 5)]) := by
  constructor
  · have h : gnc_gda_slots_load (fun _ => 0)
        (gnc_gda_slots_save { is_pristine_db := false, slots := [] } ⟨1⟩
          [(['a'], .frame [])])
        { guid := ⟨1⟩, kvp_data := [] } = [] := rfl
    rw [h]
    simp
  · have h : gnc_gda_slots_load (fun _ => 0)
        (gnc_gda_slots_save { is_pristine_db := false, slots := [] } ⟨1⟩
          [(['a', '/', 'b'], .gint64 5)])
        { guid := ⟨1⟩, kvp_data := [] } = [(['a'], .frame [(['b'], .gint64 5)])] := rfl
    rw [h]
    simp

/-! ## A key of 2^32 characters -/

theorem gint_of_gsize_wrap : gint_of_gsize (2 ^ 32) = 0 := by
  simp [gint_of_gsize]

theorem gint_of_gsize_zero : gint_of_gsize 0 = 0 := by
  simp [gint_of_gsize]

theorem gsize_of_gint_zero : gsize_of_gint 0 = 0 := by
  simp [gsize_of_gint]

theorem truncate_zero (s : List Char) : g_string_truncate s 0 = [] := by
  simp [g_string_truncate]

theorem long_row_refused (g : GUID) (nm : List Char) (v : KvpValue)
    (h : SLOT_MAX_PATHNAME_LEN < nm.length) : row_fits (leaf_row g nm v) = false := by
  have : ¬ nm.length ≤ SLOT_MAX_PATHNAME_LEN := by omega
  simp [row_fits, leaf_row, get_path, this]

/-- The trace of `save_slot` for a leaf when the buffer on entry has 2^32 characters: the
`gint` that holds its length is 0, so no separator is appended and the buffer is emptied. -/
theorem save_slot_trace_wrap (g : GUID) (key K : List Char) (x : Int)
    (hK : K.length = 2 ^ 32) :
    save_slot_trace g key (.gint64 x) K = ([leaf_row g (K ++ key) (.gint64 x)], []) := by
  simp only [save_slot_trace, hK, gint_of_gsize_wrap, ne_eq, not_true_eq_false, if_false,
    gsize_of_gint_zero, truncate_zero]

theorem save_slot_trace_empty (g : GUID) (key : List Char) (x : Int) :
    save_slot_trace g key (.gint64 x) [] = ([leaf_row g key (.gint64 x)], []) := by
  simp only [save_slot_trace, List.length_nil, gint_of_gsize_zero, ne_eq, not_true_eq_false,
    if_false, gsize_of_gint_zero, truncate_zero, List.nil_append]

/-- The rows that the store keeps of the tree `{K: {c: 2, d: 3}, d: 4}` when the key `K` has
2^32 characters: the row of `c` is refused for its length, and both leaves `d` get the path
`d`. -/
theorem wrap_example_rows (g : GUID) (K : List Char) (hK : K.length = 2 ^ 32) :
    flatten_rows g
        [(K, .frame [(['c'], .gint64 2), (['d'], .gint64 3)]), (['d'], .gint64 4)]
      = [leaf_row g ['d'] (.gint64 3), leaf_row g ['d'] (.gint64 4)] := by
  have hlong : row_fits (leaf_row g (K ++ ['c']) (.gint64 2)) = false :=
    long_row_refused g _ _ (by simp [hK, SLOT_MAX_PATHNAME_LEN])
  have h3 : row_fits (leaf_row g ['d'] (.gint64 3)) = true := rfl
  have h4 : row_fits (leaf_row g ['d'] (.gint64 4)) = true := rfl
  have hsub : kvp_frame_trace g [(['c'], .gint64 2), (['d'], .gint64 3)] K
      = ([leaf_row g (K ++ ['c']) (.gint64 2), leaf_row g ['d'] (.gint64 3)], []) := by
    simp only [kvp_frame_trace, save_slot_trace_wrap g ['c'] K 2 hK, save_slot_trace_empty,
      List.singleton_append, List.append_nil]
  have hK0 : save_slot_trace g K
      (.frame [(['c'], .gint64 2), (['d'], .gint64 3)]) []
      = ([leaf_row g (K ++ ['c']) (.gint64 2), leaf_row g ['d'] (.gint64 3)], []) := by
    simp only [save_slot_trace, List.length_nil, gint_of_gsize_zero, ne_eq, not_true_eq_false,
      if_false, List.nil_append, hsub, gsize_of_gint_zero, truncate_zero]
  simp only [flatten_rows, emitted_rows, kvp_frame_trace, hK0, save_slot_trace_empty,
    List.append_nil, List.cons_append, List.nil_append, List.filter_cons, hlong, h3, h4,
    List.filter_nil, if_true, if_false, Bool.false_eq_true]

/-- C2 (as amended). For every backend that is not flagged pristine, every entity `g` and
slot trees `T1`, `T2`: after `gnc_gda_slots_save` of `T1` and then of `T2` for `g`, the rows
that the table holds for `g` are exactly the rows of the flattening of `T2`, which are the
rows that saving `T2` alone puts into an empty table. -/
theorem save_twice_rows (be : GncGdaBackend) (g : GUID) (T1 T2 : KvpFrame)
    (hbe : be.is_pristine_db = false) :
    gnc_gda_execute_query (gnc_gda_slots_save (gnc_gda_slots_save be g T1) g T2)
        (.obj_guid_eq g) = flatten_rows g T2
      ∧ (gnc_gda_slots_save { is_pristine_db := false, slots := [] } g T2).slots
        = flatten_rows g T2 := by
  constructor
  · exact save_then_select _ g T2 (Or.inl (((slots_save_spec be g T1).2).trans hbe))
  · simpa using (slots_save_spec { is_pristine_db := false, slots := [] } g T2).1

/-- Witness of C2: `{a: 1, b: {c: 2}}` and then `{b: 3}` saved for the same entity, in a
table that holds a row of another entity. -/
theorem save_twice_rows_witness :
    gnc_gda_execute_query
        (gnc_gda_slots_save
          (gnc_gda_slots_save
            { is_pristine_db := false, slots := [leaf_row ⟨2⟩ ['z'] (.gint64 9)] } ⟨1⟩
            [(['a'], .gint64 1), (['b'], .frame [(['c'], .gint64 2)])])
          ⟨1⟩ [(['b'], .gint64 3)])
        (.obj_guid_eq ⟨1⟩) = flatten_rows ⟨1⟩ [(['b'], .gint64 3)]
      ∧ (gnc_gda_slots_save { is_pristine_db := false, slots := [] } ⟨1⟩
          [(['b'], .gint64 3)]).slots = flatten_rows ⟨1⟩ [(['b'], .gint64 3)] :=
  save_twice_rows { is_pristine_db := false, slots := [leaf_row ⟨2⟩ ['z'] (.gint64 9)] } ⟨1⟩
    [(['a'], .gint64 1), (['b'], .frame [(['c'], .gint64 2)])] [(['b'], .gint64 3)] rfl

/-- Counterexample to C2 as stated: on a backend flagged pristine the delete is skipped, so
after saving `{a: 1}` and then `{b: 2}` for the same entity the row of the first save is
still there. -/
theorem save_twice_rows_counterexample :
    gnc_gda_execute_query
        (gnc_gda_slots_save
          (gnc_gda_slots_save { is_pristine_db := true, slots := [] } ⟨1⟩ [(['a'], .gint64 1)])
          ⟨1⟩ [(['b'], .gint64 2)])
        (.obj_guid_eq ⟨1⟩)
      = [leaf_row ⟨1⟩ ['a'] (.gint64 1), leaf_row ⟨1⟩ ['b'] (.gint64 2)]
    ∧ gnc_gda_execute_query
        (gnc_gda_slots_save
          (gnc_gda_slots_save { is_pristine_db := true, slots := [] } ⟨1⟩ [(['a'], .gint64 1)])
          ⟨1⟩ [(['b'], .gint64 2)])
        (.obj_guid_eq ⟨1⟩)
      ≠ flatten_rows ⟨1⟩ [(['b'], .gint64 2)] := by
  constructor
  · rfl
  · decide

mutual
theorem value_nodes_keys_mem (k : List Char) :
    (v : KvpValue) → ∀ ks ∈ value_nodes k v, ∀ x ∈ ks, x = k ∨ x ∈ kvp_value_keys v
  | .frame sub => by
    intro ks hks x hx
    simp only [value_nodes, List.mem_cons, List.mem_map] at hks
    rcases hks with h | ⟨ks1, hks1, rfl⟩
    · subst h
      exact Or.inl (by simpa using hx)
    · simp only [List.mem_cons] at hx
      rcases hx with hx | hx
      · exact Or.inl hx
      · exact Or.inr (by simpa [kvp_value_keys] using frame_nodes_keys_mem sub ks1 hks1 x hx)
  | .gint64 _ => by simp [value_nodes]
  | .double _ => by simp [value_nodes]
  | .numeric _ => by simp [value_nodes]
  | .string _ => by simp [value_nodes]
  | .guid _ => by simp [value_nodes]
  | .timespec _ => by simp [value_nodes]
  | .binary _ => by simp [value_nodes]
  | .glist _ => by simp [value_nodes]
theorem frame_nodes_keys_mem :
    (f : KvpFrame) → ∀ ks ∈ frame_nodes f, ∀ x ∈ ks, x ∈ kvp_frame_keys f
  | [] => by simp [frame_nodes]
  | (k, v) :: rest => by
    intro ks hks x hx
    simp only [frame_nodes, List.mem_append] at hks
    simp only [kvp_frame_keys, List.mem_cons, List.mem_append]
    rcases hks with hks | hks
    · rcases value_nodes_keys_mem k v ks hks x hx with h | h
      · exact Or.inl h
      · exact Or.inr (Or.inl h)
    · exact Or.inr (Or.inr (frame_nodes_keys_mem rest ks hks x hx))
end

/-- When no key is empty, the buffer contents of a traversal from the empty buffer are the
joined keys; so a bound on the joined keys is a bound on the buffers. -/
theorem buffers_fit_of_joined (T : KvpFrame) (hkeys : [] ∉ kvp_frame_keys T)
    (hlen : ∀ ks ∈ frame_nodes T, (List.intercalate ['/'] ks).length < 2 ^ 31) :
    buffers_fit [] (frame_nodes T) := by
  refine ⟨by simp, ?_⟩
  intro ks hks
  have hk : ∀ k ∈ ks, k ≠ [] := by
    intro k hk he
    subst he
    exact hkeys (frame_nodes_keys_mem T ks hks _ hk)
  rw [path_enter_eq_intercalate ks hk]
  exact hlen ks hks

/-- C3 (as amended). Path construction: for every slot tree `T` in which no key is the empty
string and every sequence of keys from the root to a slot, joined with `/`, is shorter than
2^31 characters, the rows that `gnc_gda_slots_save` hands to the row write carry, leaf by
leaf, the keys from the root to the leaf joined with `/`; the table receives those of them
that fit the sizes of the columns. -/
theorem save_paths (be : GncGdaBackend) (g : GUID) (T : KvpFrame)
    (hkeys : [] ∉ kvp_frame_keys T)
    (hlen : ∀ ks ∈ frame_nodes T, (List.intercalate ['/'] ks).length < 2 ^ 31) :
    ∃ rows : List Row,
      (gnc_gda_slots_save be g T).slots
          = (if be.is_pristine_db then be else gnc_gda_slots_delete be g).slots
            ++ rows.filter row_fits
        ∧ rows.map Row.name = (frame_leaves T).map (fun p => List.intercalate ['/'] p.1) := by
  refine ⟨emitted_rows g T, slots_save_base be g T, ?_⟩
  rw [emitted_rows_ideal g T (buffers_fit_of_joined T hkeys hlen)]
  exact leaf_rows_names g T hkeys

/-- Witness of C3: `{a: {b: 5}}` gives the path `a/b` and `{c: 5}` the path `c`. -/
theorem save_paths_witness :
    (gnc_gda_slots_save { is_pristine_db := false, slots := [] } ⟨1⟩
        [(['a'], .frame [(['b'], .gint64 5)]), (['c'], .gint64 5)]).slots.map Row.name
      = [['a', '/', 'b'], ['c']]
    ∧ ∃ rows : List Row,
        (gnc_gda_slots_save { is_pristine_db := false, slots := [] } ⟨1⟩
            [(['a'], .frame [(['b'], .gint64 5)]), (['c'], .gint64 5)]).slots
          = (if ({ is_pristine_db := false, slots := [] } : GncGdaBackend).is_pristine_db
              then { is_pristine_db := false, slots := [] }
              else gnc_gda_slots_delete { is_pristine_db := false, slots := [] } ⟨1⟩).slots
            ++ rows.filter row_fits
        ∧ rows.map Row.name
          = (frame_leaves [(['a'], .frame [(['b'], .gint64 5)]), (['c'], .gint64 5)]).map
              (fun p => List.intercalate ['/'] p.1) :=
  ⟨rfl, save_paths { is_pristine_db := false, slots := [] } ⟨1⟩
    [(['a'], .frame [(['b'], .gint64 5)]), (['c'], .gint64 5)] (by decide) (by decide)⟩

theorem wrap_example_slots (g : GUID) (K : List Char) (hK : K.length = 2 ^ 32) :
    (gnc_gda_slots_save { is_pristine_db := false, slots := [] } g
        [(K, .frame [(['c'], .gint64 2), (['d'], .gint64 3)]), (['d'], .gint64 4)]).slots
      = [leaf_row g ['d'] (.gint64 3), leaf_row g ['d'] (.gint64 4)] := by
  rw [(slots_save_spec _ g _).1, wrap_example_rows g K hK]
  simp

theorem wrap_example_paths (K : List Char) (hK : K.length = 2 ^ 32) :
    [] ∉ kvp_frame_keys
        [(K, .frame [(['c'], .gint64 2), (['d'], .gint64 3)]), (['d'], .gint64 4)]
      ∧ (['d'], KvpValue.gint64 3) ∉
        (frame_leaves
          [(K, .frame [(['c'], .gint64 2), (['d'], .gint64 3)]), (['d'], .gint64 4)]).map
          (fun p => (List.intercalate ['/'] p.1, p.2)) := by
  have hne : K ≠ [] := by
    intro h
    rw [h] at hK
    simp at hK
  have hd : ['d'] ≠ K ++ ['/', 'd'] := by
    intro h
    have := congrArg List.length h
    simp [hK] at this
  constructor
  · simp [kvp_frame_keys, kvp_value_keys, Ne.symm hne]
  · simp [frame_leaves, value_leaves, List.intercalate, List.intersperse, hd]

/-- Counterexample to C3 as stated: in the tree `{K: {c: 2, d: 3}, d: 4}`, whose key `K` has
2^32 characters, no key is empty. The buffer `K` has a length that the `gint` `curlen` holds
as 0, so `save_slot` appends no separator and then empties the buffer: the row of `c` is
refused for its length and the leaf 3, at the keys `K`, `d`, is stored with the path `d`,
which is not the joined keys of any leaf that holds 3. -/
theorem save_paths_counterexample :
    ([] ∉ kvp_frame_keys
        [(List.replicate (2 ^ 32) 'K', .frame [(['c'], .gint64 2), (['d'], .gint64 3)]),
          (['d'], .gint64 4)]
      ∧ (['d'], KvpValue.gint64 3) ∉
        (frame_leaves
          [(List.replicate (2 ^ 32) 'K', .frame [(['c'], .gint64 2), (['d'], .gint64 3)]),
            (['d'], .gint64 4)]).map
          (fun p => (List.intercalate ['/'] p.1, p.2)))
      ∧ (gnc_gda_slots_save { is_pristine_db := false, slots := [] } ⟨1⟩
          [(List.replicate (2 ^ 32) 'K', .frame [(['c'], .gint64 2), (['d'], .gint64 3)]),
            (['d'], .gint64 4)]).slots
        = [leaf_row ⟨1⟩ ['d'] (.gint64 3), leaf_row ⟨1⟩ ['d'] (.gint64 4)] :=
  ⟨wrap_example_paths _ (List.length_replicate _ _),
    wrap_example_slots ⟨1⟩ _ (List.length_replicate _ _)⟩

/-! ## Uniqueness of paths -/

mutual
theorem value_leaves_nodup (k : List Char) :
    (v : KvpValue) → kvp_value_keys_unique v = true →
      ((value_leaves k v).map Prod.fst).Nodup
  | .frame sub => by
    intro h
    simp only [kvp_value_keys_unique] at h
    have ih := frame_leaves_nodup sub h
    have : (value_leaves k (.frame sub)).map Prod.fst
        = ((frame_leaves sub).map Prod.fst).map (fun ks => k :: ks) := by
      simp [value_leaves, List.map_map, Function.comp_def]
    rw [this]
    exact ih.map (fun a b hab => by simpa using hab)
  | .gint64 _ => by simp [value_leaves]
  | .double _ => by simp [value_leaves]
  | .numeric _ => by simp [value_leaves]
  | .string _ => by simp [value_leaves]
  | .guid _ => by simp [value_leaves]
  | .timespec _ => by simp [value_leaves]
  | .binary _ => by simp [value_leaves]
  | .glist _ => by simp [value_leaves]
theorem frame_leaves_nodup :
    (f : KvpFrame) → kvp_frame_keys_unique f = true → ((frame_leaves f).map Prod.fst).Nodup
  | [] => by simp [frame_leaves]
  | (k, v) :: rest => by
    intro h
    simp only [kvp_frame_keys_unique, Bool.and_eq_true, Option.isNone_iff_eq_none] at h
    have h1 := value_leaves_nodup k v h.1.2
    have h2 := frame_leaves_nodup rest h.2
    have hk : k ∉ rest.map Prod.fst := (get_slot_eq_none_iff rest k).mp h.1.1
    simp only [frame_leaves, List.map_append]
    refine List.Nodup.append h1 h2 ?_
    intro x hx1 hx2
    simp only [List.mem_map] at hx1 hx2
    obtain ⟨p, hp, rfl⟩ := hx1
    obtain ⟨q, hq, hqp⟩ := hx2
    obtain ⟨ks, hks⟩ := value_leaves_head k v p hp
    obtain ⟨k', ks', hks', hk'⟩ := frame_leaves_head rest q hq
    rw [hks, hks'] at hqp
    have : k' = k := by simpa using (List.cons.inj hqp).1
    exact hk (this ▸ hk')
end

/-- C6 (as amended). Path uniqueness: for every slot tree `T` whose keys are distinct within
each frame, non-empty and free of the separator `/`, and in which every sequence of keys
from the root to a slot, joined with `/`, is shorter than 2^31 characters, the rows that
`gnc_gda_slots_save` hands to the row write have pairwise distinct paths; the table receives
those of them that fit the sizes of the columns. -/
theorem save_paths_nodup (be : GncGdaBackend) (g : GUID) (T : KvpFrame)
    (hunique : kvp_frame_keys_unique T = true)
    (hkeys : ∀ k ∈ kvp_frame_keys T, k ≠ [] ∧ '/' ∉ k)
    (hlen : ∀ ks ∈ frame_nodes T, (List.intercalate ['/'] ks).length < 2 ^ 31) :
    ∃ rows : List Row,
      (gnc_gda_slots_save be g T).slots
          = (if be.is_pristine_db then be else gnc_gda_slots_delete be g).slots
            ++ rows.filter row_fits
        ∧ (rows.map Row.name).Nodup := by
  have hne : [] ∉ kvp_frame_keys T := fun h => (hkeys [] h).1 rfl
  refine ⟨emitted_rows g T, slots_save_base be g T, ?_⟩
  rw [emitted_rows_ideal g T (buffers_fit_of_joined T hne hlen), leaf_rows_names g T hne]
  have : (frame_leaves T).map (fun p => List.intercalate ['/'] p.1)
      = ((frame_leaves T).map Prod.fst).map (fun ks => List.intercalate ['/'] ks) := by
    simp [List.map_map, Function.comp_def]
  rw [this]
  refine List.Nodup.map_on ?_ (frame_leaves_nodup T hunique)
  intro a ha b hb hab
  simp only [List.mem_map] at ha hb
  obtain ⟨p, hp, rfl⟩ := ha
  obtain ⟨q, hq, rfl⟩ := hb
  have hsp : ∀ k ∈ p.1, '/' ∉ k := fun k hk => (hkeys k (frame_leaves_keys_mem T p hp k hk)).2
  have hsq : ∀ k ∈ q.1, '/' ∉ k := fun k hk => (hkeys k (frame_leaves_keys_mem T q hq k hk)).2
  have e1 : (List.intercalate ['/'] p.1).splitOn '/' = p.1 :=
    List.splitOn_intercalate p.1 '/' hsp (frame_leaves_keys_ne_nil T p hp)
  have e2 : (List.intercalate ['/'] q.1).splitOn '/' = q.1 :=
    List.splitOn_intercalate q.1 '/' hsq (frame_leaves_keys_ne_nil T q hq)
  rw [← e1, ← e2, hab]

/-- Witness of C6: the rows of `{a: {b: 1, c: 2}, b: 3}` have the distinct paths `a/b`, `a/c`
and `b`. -/
theorem save_paths_nodup_witness :
    ∃ rows : List Row,
      (gnc_gda_slots_save { is_pristine_db := false, slots := [] } ⟨1⟩
          [(['a'], .frame [(['b'], .gint64 1), (['c'], .gint64 2)]), (['b'], .gint64 3)]).slots
        = (if ({ is_pristine_db := false, slots := [] } : GncGdaBackend).is_pristine_db
            then { is_pristine_db := false, slots := [] }
            else gnc_gda_slots_delete { is_pristine_db := false, slots := [] } ⟨1⟩).slots
          ++ rows.filter row_fits
        ∧ (rows.map Row.name).Nodup :=
  save_paths_nodup { is_pristine_db := false, slots := [] } ⟨1⟩
    [(['a'], .frame [(['b'], .gint64 1), (['c'], .gint64 2)]), (['b'], .gint64 3)]
    rfl (by decide) (by decide)

theorem wrap_example_keys (K : List Char) (hK : K.length = 2 ^ 32) (hs : '/' ∉ K) :
    kvp_frame_keys_unique
        [(K, .frame [(['c'], .gint64 2), (['d'], .gint64 3)]), (['d'], .gint64 4)] = true
      ∧ ∀ k ∈ kvp_frame_keys
          [(K, .frame [(['c'], .gint64 2), (['d'], .gint64 3)]), (['d'], .gint64 4)],
        k ≠ [] ∧ '/' ∉ k := by
  have hne : K ≠ [] := by
    intro h
    rw [h] at hK
    simp at hK
  have hd : ['d'] ≠ K := by
    intro h
    have := congrArg List.length h
    simp [hK] at this
  constructor
  · simp [kvp_frame_keys_unique, kvp_value_keys_unique, kvp_frame_get_slot, hd]
  · intro k hk
    simp only [kvp_frame_keys, kvp_value_keys, List.mem_cons, List.mem_append,
      List.not_mem_nil, or_false] at hk
    rcases hk with h | (h | h | h) | h
    all_goals
      first
      | exact absurd h id
      | (subst h; exact ⟨hne, hs⟩)
      | (subst h; exact ⟨by simp, by decide⟩)

set_option maxRecDepth 4000 in
/-- Counterexample to C6 as stated: in `{"a/b": 1, a: {b: 2}}` the keys of each frame are
distinct, and the two leaves are both flattened to the path `a/b`. And in
`{K: {c: 2, d: 3}, d: 4}`, whose key `K` has 2^32 characters, the keys are distinct within
each frame, non-empty and free of the separator, and the `gint` `curlen` holds the length of
the buffer `K` as 0, so both leaves `d` are stored with the path `d`. -/
theorem save_paths_nodup_counterexample :
    (kvp_frame_keys_unique
        [(['a', '/', 'b'], .gint64 1), (['a'], .frame [(['b'], .gint64 2)])] = true
      ∧ (gnc_gda_slots_save { is_pristine_db := false, slots := [] } ⟨1⟩
          [(['a', '/', 'b'], .gint64 1), (['a'], .frame [(['b'], .gint64 2)])]).slots.map
            Row.name = [['a', '/', 'b'], ['a', '/', 'b']]
      ∧ ¬ ((gnc_gda_slots_save { is_pristine_db := false, slots := [] } ⟨1⟩
          [(['a', '/', 'b'], .gint64 1), (['a'], .frame [(['b'], .gint64 2)])]).slots.map
            Row.name).Nodup)
    ∧ ((kvp_frame_keys_unique
          [(List.replicate (2 ^ 32) 'K', .frame [(['c'], .gint64 2), (['d'], .gint64 3)]),
            (['d'], .gint64 4)] = true
        ∧ ∀ k ∈ kvp_frame_keys
            [(List.replicate (2 ^ 32) 'K', .frame [(['c'], .gint64 2), (['d'], .gint64 3)]),
              (['d'], .gint64 4)],
          k ≠ [] ∧ '/' ∉ k)
      ∧ (gnc_gda_slots_save { is_pristine_db := false, slots := [] } ⟨1⟩
          [(List.replicate (2 ^ 32) 'K', .frame [(['c'], .gint64 2), (['d'], .gint64 3)]),
            (['d'], .gint64 4)]).slots.map Row.name = [['d'], ['d']]) := by
  refine ⟨⟨rfl, rfl, by decide⟩, wrap_example_keys _ (List.length_replicate _ _) ?_, ?_⟩
  · intro h
    exact absurd (List.eq_of_mem_replicate h) (by decide)
  · rw [wrap_example_slots ⟨1⟩ _ (List.length_replicate _ _)]
    rfl

/-! ## Frames are never rows; delete -/

mutual
theorem value_leaves_length (k : List Char) :
    (v : KvpValue) → (value_leaves k v).length = kvp_value_leaf_count v
  | .frame sub => by
    simp [value_leaves, kvp_value_leaf_count, frame_leaves_length sub]
  | .gint64 _ => by simp [value_leaves, kvp_value_leaf_count]
  | .double _ => by simp [value_leaves, kvp_value_leaf_count]
  | .numeric _ => by simp [value_leaves, kvp_value_leaf_count]
  | .string _ => by simp [value_leaves, kvp_value_leaf_count]
  | .guid _ => by simp [value_leaves, kvp_value_leaf_count]
  | .timespec _ => by simp [value_leaves, kvp_value_leaf_count]
  | .binary _ => by simp [value_leaves, kvp_value_leaf_count]
  | .glist _ => by simp [value_leaves, kvp_value_leaf_count]
theorem frame_leaves_length :
    (f : KvpFrame) → (frame_leaves f).length = kvp_frame_leaf_count f
  | [] => by simp [frame_leaves, kvp_frame_leaf_count]
  | (k, v) :: rest => by
    simp [frame_leaves, kvp_frame_leaf_count, value_leaves_length k v, frame_leaves_length rest]
end

mutual
theorem value_leaves_not_frame (k : List Char) :
    (v : KvpValue) → ∀ p ∈ value_leaves k v, kvp_value_get_type (some p.2) ≠ KVP_TYPE_FRAME
  | .frame sub => by
    intro p hp
    simp only [value_leaves, List.mem_map] at hp
    obtain ⟨q, hq, rfl⟩ := hp
    exact frame_leaves_not_frame sub q hq
  | .gint64 _ => by simp [value_leaves, kvp_value_get_type, KVP_TYPE_GINT64, KVP_TYPE_FRAME]
  | .double _ => by simp [value_leaves, kvp_value_get_type, KVP_TYPE_DOUBLE, KVP_TYPE_FRAME]
  | .numeric _ => by simp [value_leaves, kvp_value_get_type, KVP_TYPE_NUMERIC, KVP_TYPE_FRAME]
  | .string _ => by simp [value_leaves, kvp_value_get_type, KVP_TYPE_STRING, KVP_TYPE_FRAME]
  | .guid _ => by simp [value_leaves, kvp_value_get_type, KVP_TYPE_GUID, KVP_TYPE_FRAME]
  | .timespec _ => by
    simp [value_leaves, kvp_value_get_type, KVP_TYPE_TIMESPEC, KVP_TYPE_FRAME]
  | .binary _ => by simp [value_leaves, kvp_value_get_type, KVP_TYPE_BINARY, KVP_TYPE_FRAME]
  | .glist _ => by simp [value_leaves, kvp_value_get_type, KVP_TYPE_GLIST, KVP_TYPE_FRAME]
theorem frame_leaves_not_frame :
    (f : KvpFrame) → ∀ p ∈ frame_leaves f, kvp_value_get_type (some p.2) ≠ KVP_TYPE_FRAME
  | [] => by simp [frame_leaves]
  | (k, v) :: rest => by
    intro p hp
    simp only [frame_leaves, List.mem_append] at hp
    rcases hp with hp | hp
    · exact value_leaves_not_frame k v p hp
    · exact frame_leaves_not_frame rest p hp
end

/-- C9. For every store and entity `g`, after `gnc_gda_slots_delete` the table holds no row
of `g`, and `gnc_gda_slots_load` of `g` into an empty tree leaves the tree empty. -/
theorem delete_then_load (uninit : Nat → KvpValueType) (be : GncGdaBackend) (g : GUID) :
    gnc_gda_execute_query (gnc_gda_slots_delete be g) (.obj_guid_eq g) = []
      ∧ gnc_gda_slots_load uninit (gnc_gda_slots_delete be g) { guid := g, kvp_data := [] }
        = [] := by
  have h : gnc_gda_execute_query (gnc_gda_slots_delete be g) (.obj_guid_eq g) = [] := by
    simp only [gnc_gda_execute_query, gnc_gda_slots_delete, gnc_gda_do_db_operation,
      get_obj_guid, List.filter_filter]
    rw [List.filter_eq_nil_iff]
    intro r _
    by_cases hr : r.obj_guid = g <;> simp [hr]
  exact ⟨h, by simp [gnc_gda_slots_load, h]⟩

/-! ## Batch load -/

theorem item_fold_eq (uninit : Nat → KvpValueType) (be : GncGdaBackend) (g : GUID) :
    ∀ (L : List (Nat × Row)) (coll : QofCollection),
      (L.foldl (fun c rr => load_slot_for_list_item (uninit rr.1) be rr.2 c) coll) g
        = (coll g).map (fun f =>
            (L.filter (fun rr => decide (rr.2.obj_guid = g))).foldl
              (fun f rr => load_slot (uninit rr.1) be rr.2 f) f) := by
  intro L
  induction L with
  | nil => intro coll; simp
  | cons rr L ih =>
    intro coll
    simp only [List.foldl_cons]
    rw [ih, load_item_eq]
    by_cases h : rr.2.obj_guid = g
    · subst h
      simp [List.filter_cons, Option.map_map, Function.comp_def]
    · have h' : g ≠ rr.2.obj_guid := fun e => h e.symm
      simp [List.filter_cons, h, h']

theorem list_query_rows (be : GncGdaBackend) (first : GUID) (rest : List GUID) :
    gnc_gda_execute_query be
        (if (first :: rest).length ≠ 1 then .obj_guid_in (first :: rest)
          else .obj_guid_eq first)
      = be.slots.filter (fun r => decide (r.obj_guid ∈ first :: rest)) := by
  cases rest with
  | nil => simp [gnc_gda_execute_query]
  | cons a l => simp [gnc_gda_execute_query]

theorem load_for_list_eq (uninit : Nat → KvpValueType) (be : GncGdaBackend)
    (coll : QofCollection) (list : List GUID) (g : GUID) :
    gnc_gda_slots_load_for_list uninit be coll list g
      = (coll g).map (fun f =>
          ((be.slots.filter (fun r => decide (r.obj_guid ∈ list))).enum.filter
              (fun rr => decide (rr.2.obj_guid = g))).foldl
            (fun f rr => load_slot (uninit rr.1) be rr.2 f) f) := by
  cases list with
  | nil => simp [gnc_gda_slots_load_for_list]
  | cons first rest =>
    simp only [gnc_gda_slots_load_for_list]
    rw [list_query_rows, item_fold_eq]

theorem foldl_filter_enumFrom_congr {β : Type} (F : Nat → Row → β → β) (G : Row → β → β)
    (P : Row → Bool) :
    ∀ (L : List Row) (n : Nat) (init : β), (∀ a ∈ L, P a = true → ∀ m b, F m a b = G a b) →
      ((L.enumFrom n).filter (fun rr => P rr.2)).foldl (fun b rr => F rr.1 rr.2 b) init
        = (L.filter P).foldl (fun b r => G r b) init := by
  intro L
  induction L with
  | nil => intro n init _; simp
  | cons a L ih =>
    intro n init hF
    have hL : ∀ a' ∈ L, P a' = true → ∀ m b, F m a' b = G a' b :=
      fun a' ha' => hF a' (List.mem_cons_of_mem _ ha')
    by_cases h : P a
    · simp [List.enumFrom_cons, List.filter_cons, h, ih _ _ hL,
        hF a (List.mem_cons_self _ _) h]
    · simp [List.enumFrom_cons, List.filter_cons, h, ih _ _ hL]

theorem load_slot_indep (u1 u2 : KvpValueType) (be : GncGdaBackend) (row : Row)
    (frame : KvpFrame) (h : row.slot_type ≠ 0) :
    load_slot u1 be row frame = load_slot u2 be row frame := by
  rw [load_slot_of_stored_type u1 be row frame h, load_slot_of_stored_type u2 be row frame h]

/-- The single load as a fold without row numbers, when the content of the uninitialised
field is the same for every row or no row of the entity has the discriminant 0. -/
theorem slots_load_fold (uninit : Nat → KvpValueType) (u : KvpValueType) (be : GncGdaBackend)
    (inst : QofInstance)
    (h : ∀ r ∈ be.slots, r.obj_guid = inst.guid → ∀ m f,
      load_slot (uninit m) be r f = load_slot u be r f) :
    gnc_gda_slots_load uninit be inst
      = (be.slots.filter (fun r => decide (r.obj_guid = inst.guid))).foldl
          (fun f r => load_slot u be r f) inst.kvp_data := by
  simp only [gnc_gda_slots_load, gnc_gda_execute_query, List.enum]
  refine foldl_enumFrom_congr (fun m r f => load_slot (uninit m) be r f)
    (fun r f => load_slot u be r f) _ 0 _ ?_
  intro r hr m f
  have hm := List.mem_filter.mp hr
  exact h r hm.1 (by simpa using hm.2) m f

/-- The batch load, at one entity of the list, as a fold without row numbers. -/
theorem load_for_list_fold (uninit : Nat → KvpValueType) (u : KvpValueType)
    (be : GncGdaBackend) (coll : QofCollection) (list : List GUID) (g : GUID) (hg : g ∈ list)
    (h : ∀ r ∈ be.slots, r.obj_guid = g → ∀ m f,
      load_slot (uninit m) be r f = load_slot u be r f) :
    gnc_gda_slots_load_for_list uninit be coll list g
      = (coll g).map (fun f =>
          (be.slots.filter (fun r => decide (r.obj_guid = g))).foldl
            (fun f r => load_slot u be r f) f) := by
  rw [load_for_list_eq]
  congr 1
  funext f
  rw [List.enum, foldl_filter_enumFrom_congr (fun m r f => load_slot (uninit m) be r f)
    (fun r f => load_slot u be r f) (fun r => decide (r.obj_guid = g)) _ 0 f ?_,
    List.filter_filter]
  · congr 1
    apply List.filter_congr
    intro r _
    by_cases hr : r.obj_guid = g
    · simp [hr, hg]
    · simp [hr]
  · intro r hr hP m b
    exact h r (List.mem_filter.mp hr).1 (by simpa using hP) m b

/-- Outside the defect of `set_slot_type`: when no row of the entity `g` of the list has the
discriminant 0, the batch load gives `g` the tree that `gnc_gda_slots_load` of `g` alone
gives, whatever the uninitialised cursor fields hold. -/
theorem load_for_list_eq_single (uninit uninit2 : Nat → KvpValueType) (be : GncGdaBackend)
    (coll : QofCollection) (list : List GUID) (g : GUID) (hg : g ∈ list)
    (hnz : ∀ r ∈ be.slots, r.obj_guid = g → r.slot_type ≠ 0) :
    gnc_gda_slots_load_for_list uninit be coll list g
      = (coll g).map (fun f => gnc_gda_slots_load uninit2 be { guid := g, kvp_data := f }) := by
  rw [load_for_list_fold uninit 1 be coll list g hg
    (fun r hr hrg m f => load_slot_indep _ _ be r f (hnz r hr hrg))]
  congr 1
  funext f
  rw [slots_load_fold uninit2 1 be { guid := g, kvp_data := f }
    (fun r hr hrg m f => load_slot_indep _ _ be r f (hnz r hr hrg))]

/-- C4, at the failing input. The table holds a row of entity 2 with the discriminant
`KVP_TYPE_GINT64` and after it a row of entity 1 with the discriminant 0 and the value 5 in
`int64_val`. No row is given to the tree of another entity: the row of entity 2 leaves the
tree of entity 1 as it is. But in the batch load of `[1, 2]` the call for the second row
finds in its uninitialised field `value_type` what the call for the first row stored there,
`KVP_TYPE_GINT64`, and entity 1 gets the slot `a = 5`; loading only the rows of entity 1,
with 0 in the field, leaves its tree empty. -/
theorem load_for_list_stale_type :
    load_slot_for_list_item 0 { is_pristine_db := false, slots := [] }
        { obj_guid := ⟨2⟩, name := ['x'], slot_type := KVP_TYPE_GINT64, int64_val := 7,
          string_val := none, double_val := none, timespec_val := ⟨0, 0⟩, guid_val := none,
          numeric_val := ⟨0, 1⟩ } example_coll ⟨1⟩ = example_coll ⟨1⟩
    ∧ gnc_gda_slots_load_for_list (fun r => if r = 1 then KVP_TYPE_GINT64 else 0)
        { is_pristine_db := false
          slots :=
            [{ obj_guid := ⟨2⟩, name := ['x'], slot_type := KVP_TYPE_GINT64, int64_val := 7,
               string_val := none, double_val := none, timespec_val := ⟨0, 0⟩,
               guid_val := none, numeric_val := ⟨0, 1⟩ },
             { obj_guid := ⟨1⟩, name := ['a'], slot_type := 0, int64_val := 5,
               string_val := none, double_val := none, timespec_val := ⟨0, 0⟩,
               guid_val := none, numeric_val := ⟨0, 1⟩ }] }
        example_coll [⟨1⟩, ⟨2⟩] ⟨1⟩ = some [(['a'], .gint64 5)]
    ∧ gnc_gda_slots_load (fun _ => 0)
        { is_pristine_db := false
          slots :=
            [{ obj_guid := ⟨2⟩, name := ['x'], slot_type := KVP_TYPE_GINT64, int64_val := 7,
               string_val := none, double_val := none, timespec_val := ⟨0, 0⟩,
               guid_val := none, numeric_val := ⟨0, 1⟩ },
             { obj_guid := ⟨1⟩, name := ['a'], slot_type := 0, int64_val := 5,
               string_val := none, double_val := none, timespec_val := ⟨0, 0⟩,
               guid_val := none, numeric_val := ⟨0, 1⟩ }] }
        { guid := ⟨1⟩, kvp_data := [] } = [] :=
  ⟨rfl, rfl, rfl⟩

/-- C5, at the failing input. The table holds one row of entity 1, with the discriminant 0
and the value 5 in `int64_val`. `load_slot_for_list_item` and `load_slot` each leave the field
`value_type` of their own cursor unset: when the batch load of `[1]` finds `KVP_TYPE_GINT64`
there and the single load finds 0, the batch load gives entity 1 the tree `{a: 5}` and the
single load the empty tree, from the same store and the same initial tree. -/
theorem load_for_list_single_stale_type :
    gnc_gda_slots_load_for_list (fun _ => KVP_TYPE_GINT64)
        { is_pristine_db := false
          slots :=
            [{ obj_guid := ⟨1⟩, name := ['a'], slot_type := 0, int64_val := 5,
               string_val := none, double_val := none, timespec_val := ⟨0, 0⟩,
               guid_val := none, numeric_val := ⟨0, 1⟩ }] }
        example_coll [⟨1⟩] ⟨1⟩ = some [(['a'], .gint64 5)]
    ∧ gnc_gda_slots_load (fun _ => 0)
        { is_pristine_db := false
          slots :=
            [{ obj_guid := ⟨1⟩, name := ['a'], slot_type := 0, int64_val := 5,
               string_val := none, double_val := none, timespec_val := ⟨0, 0⟩,
               guid_val := none, numeric_val := ⟨0, 1⟩ }] }
        { guid := ⟨1⟩, kvp_data := [] } = [] :=
  ⟨rfl, rfl⟩

/-! ## The typed-value columns of a row -/

theorem leaf_row_columns (g : GUID) (nm : List Char) (v : KvpValue) :
    typed_columns_of_leaf (leaf_row g nm v) v := by
  cases v <;>
    simp [typed_columns_of_leaf, row_value, leaf_row, get_slot_type, get_int64_val,
      get_string_val, get_double_val, get_timespec_val, get_guid_val, get_numeric_val,
      kvp_value_get_type, kvp_value_get_gint64, kvp_value_get_string, kvp_value_get_double,
      kvp_value_get_timespec, kvp_value_get_guid, kvp_value_get_numeric, kvp_value_storable,
      gnc_numeric_zero, KVP_TYPE_GINT64, KVP_TYPE_STRING, KVP_TYPE_DOUBLE, KVP_TYPE_TIMESPEC,
      KVP_TYPE_GUID, KVP_TYPE_NUMERIC, KVP_TYPE_BINARY, KVP_TYPE_GLIST, KVP_TYPE_FRAME]

/-- C7 (as amended). For every row that `gnc_gda_slots_save` emits for a leaf: the
discriminant is the kind of the leaf; the typed column of the discriminant, when the kind has
one, holds the leaf value; of the three columns whose getter returns a pointer (`string_val`,
`double_val`, `guid_val`) one is non-null exactly when the discriminant is its kind, so at
most one of them is; and the by-value columns `int64_val` and `numeric_val` hold zero when
the discriminant is not theirs. The table receives those of the emitted rows that fit the
sizes of the columns. -/
theorem save_typed_columns (be : GncGdaBackend) (g : GUID) (T : KvpFrame) :
    ∃ rows : List Row,
      (gnc_gda_slots_save be g T).slots
          = (if be.is_pristine_db then be else gnc_gda_slots_delete be g).slots
            ++ rows.filter row_fits
        ∧ List.Forall₂ (fun r p => typed_columns_of_leaf r p.2) rows (frame_leaves T) := by
  refine ⟨emitted_rows g T, slots_save_base be g T, ?_⟩
  refine (emitted_rows_leaves g T).imp ?_
  intro r p h
  obtain ⟨name, rfl⟩ := h
  exact leaf_row_columns g name p.2

/-- Counterexample to C7 as stated: the row emitted for a leaf that is a list has the
discriminant `KVP_TYPE_GLIST`, to which no typed column corresponds, its three pointer
columns are null and its by-value columns hold zero; and the row emitted for a string leaf
has, besides `string_val`, the values 0, the zero timestamp and 0/1 in the by-value columns.
In neither row is the set of populated typed columns the one column of the discriminant. -/
theorem save_typed_columns_counterexample :
    (gnc_gda_slots_save { is_pristine_db := false, slots := [] } ⟨1⟩
        [(['a'], .glist [])]).slots
      = [{ obj_guid := ⟨1⟩, name := ['a'], slot_type := KVP_TYPE_GLIST, int64_val := 0,
           string_val := none, double_val := none, timespec_val := ⟨0, 0⟩, guid_val := none,
           numeric_val := ⟨0, 1⟩ }]
    ∧ column_of_type KVP_TYPE_GLIST = none
    ∧ (gnc_gda_slots_save { is_pristine_db := false, slots := [] } ⟨1⟩
        [(['a'], .string ['s'])]).slots
      = [{ obj_guid := ⟨1⟩, name := ['a'], slot_type := KVP_TYPE_STRING, int64_val := 0,
           string_val := some ['s'], double_val := none, timespec_val := ⟨0, 0⟩,
           guid_val := none, numeric_val := ⟨0, 1⟩ }]
    ∧ ¬ (∀ r ∈ (gnc_gda_slots_save { is_pristine_db := false, slots := [] } ⟨1⟩
          [(['a'], .glist []), (['b'], .string ['s'])]).slots,
        ∃ c, column_of_type r.slot_type = some c
          ∧ ∀ c', column_populated r c' = true ↔ c' = c) := by
  refine ⟨rfl, rfl, rfl, ?_⟩
  intro h
  obtain ⟨c, hc, -⟩ := h
    { obj_guid := ⟨1⟩, name := ['a'], slot_type := KVP_TYPE_GLIST, int64_val := 0,
      string_val := none, double_val := none, timespec_val := ⟨0, 0⟩, guid_val := none,
      numeric_val := ⟨0, 1⟩ } (by decide)
  have hnone : column_of_type KVP_TYPE_GLIST = none := rfl
  simp [hnone] at hc

/-! ## Dispatch on the discriminant -/

/-- C10, at the failing input. The row has discriminant 0, which names no storable kind, and
the value 5 in `int64_val`. `set_slot_type` returns at its guard and stores nothing, so the
setters dispatch on the content of the uninitialised field `value_type`: when that is
`KVP_TYPE_GINT64` the tree gets the slot `a = 5`, and when it is 0 the tree is unchanged. -/
theorem load_slot_discriminant_zero :
    load_slot KVP_TYPE_GINT64 { is_pristine_db := false, slots := [] }
        { obj_guid := ⟨1⟩, name := ['a'], slot_type := 0, int64_val := 5, string_val := none,
          double_val := none, timespec_val := ⟨0, 0⟩, guid_val := none,
          numeric_val := ⟨0, 1⟩ } []
      = [(['a'], .gint64 5)]
    ∧ load_slot 0 { is_pristine_db := false, slots := [] }
        { obj_guid := ⟨1⟩, name := ['a'], slot_type := 0, int64_val := 5, string_val := none,
          double_val := none, timespec_val := ⟨0, 0⟩, guid_val := none,
          numeric_val := ⟨0, 1⟩ } []
      = [] :=
  ⟨rfl, rfl⟩

/-! ## Backtracking of the path buffer -/

theorem save_leaf_path_trace (g : GUID) (key : List Char) (v : KvpValue) (i : slot_info_t)
    (hv : ∀ f, v ≠ .frame f) :
    (save_slot key v i).path = (save_slot_trace g key v i.path).2 := by
  cases v with
  | frame f => exact absurd rfl (hv f)
  | _ =>
    by_cases hp : gint_of_gsize i.path.length = 0
    · simp [save_slot, save_slot_trace, hp]
    · simp [save_slot, save_slot_trace, hp]

mutual
theorem save_slot_path_trace (g : GUID) (key : List Char) :
    (v : KvpValue) → (i : slot_info_t) →
      (save_slot key v i).path = (save_slot_trace g key v i.path).2
  | .frame f, i => by
    have ih := save_each_path_trace g f
      { i with pKvpValue := some (.frame f),
               path := (if gint_of_gsize i.path.length ≠ 0 then i.path ++ ['/'] else i.path)
                 ++ key }
    by_cases hp : gint_of_gsize i.path.length = 0
    · simp only [hp, ne_eq, not_true_eq_false, if_false] at ih
      simp only [save_slot, save_slot_trace, hp, ne_eq, not_true_eq_false, if_false, ih]
    · simp only [hp, ne_eq, not_false_eq_true, if_true] at ih
      simp only [save_slot, save_slot_trace, hp, ne_eq, not_false_eq_true, if_true, ih]
  | .gint64 x, i => save_leaf_path_trace g key (.gint64 x) i (by intro f; simp)
  | .double x, i => save_leaf_path_trace g key (.double x) i (by intro f; simp)
  | .numeric x, i => save_leaf_path_trace g key (.numeric x) i (by intro f; simp)
  | .string x, i => save_leaf_path_trace g key (.string x) i (by intro f; simp)
  | .guid x, i => save_leaf_path_trace g key (.guid x) i (by intro f; simp)
  | .timespec x, i => save_leaf_path_trace g key (.timespec x) i (by intro f; simp)
  | .binary x, i => save_leaf_path_trace g key (.binary x) i (by intro f; simp)
  | .glist x, i => save_leaf_path_trace g key (.glist x) i (by intro f; simp)
theorem save_each_path_trace (g : GUID) :
    (f : KvpFrame) → (i : slot_info_t) →
      (kvp_frame_for_each_slot_save_slot f i).path = (kvp_frame_trace g f i.path).2
  | [], i => by simp [kvp_frame_for_each_slot_save_slot, kvp_frame_trace]
  | (k, v) :: rest, i => by
    simp only [kvp_frame_for_each_slot_save_slot, kvp_frame_trace]
    rw [save_each_path_trace g rest (save_slot k v i), save_slot_path_trace g k v i]
end

theorem save_each_append (pre post : KvpFrame) (i : slot_info_t) :
    kvp_frame_for_each_slot_save_slot (pre ++ post) i
      = kvp_frame_for_each_slot_save_slot post (kvp_frame_for_each_slot_save_slot pre i) := by
  induction pre generalizing i with
  | nil => simp [kvp_frame_for_each_slot_save_slot]
  | cons a pre ih =>
    obtain ⟨k, v⟩ := a
    simp [kvp_frame_for_each_slot_save_slot, ih]

/-- C11 (as amended). Backtracking, when every buffer content that is reached is shorter than
2^31 characters: for every key, every value (a leaf or a frame nested to any depth) and
every cursor, `save_slot` returns with the path buffer equal to its content on entry; so in
the traversal of a frame the slot `(key, value)` that follows the slots `pre` is entered
with the buffer the traversal started with, and the traversal that `gnc_gda_slots_save`
starts with an empty buffer ends with an empty buffer. -/
theorem save_slot_backtracks (key : List Char) (value : KvpValue) (data : slot_info_t)
    (pre post : KvpFrame) (be : GncGdaBackend) (guid : GUID) (pFrame : KvpFrame)
    (hvalue : buffers_fit data.path (value_nodes key value))
    (hpre : buffers_fit data.path (frame_nodes pre))
    (hframe : buffers_fit [] (frame_nodes pFrame)) :
    (save_slot key value data).path = data.path
      ∧ (kvp_frame_for_each_slot_save_slot (pre ++ (key, value) :: post) data
          = kvp_frame_for_each_slot_save_slot post
              (save_slot key value (kvp_frame_for_each_slot_save_slot pre data))
        ∧ (kvp_frame_for_each_slot_save_slot pre data).path = data.path)
      ∧ (gnc_gda_slots_save be guid pFrame
          = (kvp_frame_for_each_slot_save_slot pFrame
              { be := if !be.is_pristine_db then gnc_gda_slots_delete be guid else be,
                guid := some guid, pKvpFrame := none, value_type := 0, pKvpValue := none,
                path := [] }).be
        ∧ (kvp_frame_for_each_slot_save_slot pFrame
              { be := if !be.is_pristine_db then gnc_gda_slots_delete be guid else be,
                guid := some guid, pKvpFrame := none, value_type := 0, pKvpValue := none,
                path := [] }).path = []) := by
  refine ⟨?_, ⟨?_, ?_⟩, rfl, ?_⟩
  · rw [save_slot_path_trace guid key value data,
      save_slot_trace_ideal guid key value data.path hvalue]
  · rw [save_each_append]
    simp [kvp_frame_for_each_slot_save_slot]
  · rw [save_each_path_trace guid pre data, kvp_frame_trace_ideal guid pre data.path hpre]
  · rw [save_each_path_trace guid pFrame _, kvp_frame_trace_ideal guid pFrame [] hframe]

/-- Witness of C11: with the buffer `a` on entry, `save_slot` of the slot `b` that holds
the frame `{c: 1, d: {e: 2}, f: {}}` emits the paths `a/b/c` and `a/b/d/e` and returns with
the buffer `a`. -/
theorem save_slot_backtracks_witness :
    (save_slot ['b']
        (.frame [(['c'], .gint64 1), (['d'], .frame [(['e'], .gint64 2)]),
          (['f'], .frame [])])
        { be := { is_pristine_db := false, slots := [] }, guid := some ⟨1⟩, pKvpFrame := none,
          value_type := 0, pKvpValue := none, path := ['a'] }).path = ['a']
      ∧ (save_slot ['b']
        (.frame [(['c'], .gint64 1), (['d'], .frame [(['e'], .gint64 2)]),
          (['f'], .frame [])])
        { be := { is_pristine_db := false, slots := [] }, guid := some ⟨1⟩, pKvpFrame := none,
          value_type := 0, pKvpValue := none, path := ['a'] }).be.slots.map Row.name
        = [['a', '/', 'b', '/', 'c'], ['a', '/', 'b', '/', 'd', '/', 'e']] :=
  ⟨(save_slot_backtracks ['b']
      (.frame [(['c'], .gint64 1), (['d'], .frame [(['e'], .gint64 2)]), (['f'], .frame [])])
      { be := { is_pristine_db := false, slots := [] }, guid := some ⟨1⟩, pKvpFrame := none,
        value_type := 0, pKvpValue := none, path := ['a'] }
      [] [] { is_pristine_db := false, slots := [] } ⟨1⟩ []
      ⟨by decide, by decide⟩ ⟨by decide, by decide⟩ ⟨by decide, by decide⟩).1, rfl⟩

theorem save_slot_wrap_path (key K : List Char) (x : Int) (i : slot_info_t)
    (hK : i.path = K) (hlen : K.length = 2 ^ 32) :
    (save_slot key (.gint64 x) i).path = [] := by
  rw [save_slot_path_trace ⟨0⟩ key (.gint64 x) i, hK, save_slot_trace_wrap ⟨0⟩ key K x hlen]

/-- Counterexample to C11 as stated: with a buffer of 2^32 characters on entry, the `gint`
`curlen` is 0, and `save_slot` of a leaf returns with the empty buffer, not with the buffer
it was entered with. -/
theorem save_slot_backtracks_counterexample :
    (save_slot ['c'] (.gint64 2)
        { be := { is_pristine_db := false, slots := [] }, guid := some ⟨1⟩, pKvpFrame := none,
          value_type := 0, pKvpValue := none, path := List.replicate (2 ^ 32) 'K' }).path = []
      ∧ List.replicate (2 ^ 32) 'K' ≠ [] := by
  refine ⟨save_slot_wrap_path ['c'] (List.replicate (2 ^ 32) 'K') 2 _ rfl
    (List.length_replicate _ _), ?_⟩
  intro h
  have := congrArg List.length h
  rw [List.length_replicate] at this
  simp at this

end GncSlotsGda
